import Mathlib

/-!
Verification of the per-tick simulation core of an agar-style arcade game.

Definitions are translated from the repository sources:
- numeric constants from src/constants.ts;
- geometry and mass/radius conversion from the math utilities file
  (src/unnamed/part_000);
- entity record types from src/unnamed/part_002;
- the per-tick update logic (split, eject, movement integration,
  self-collision, food consumption, cross-actor consumption, virus
  interaction, ejected-mass handling, match clock) from the game canvas
  component (src/unnamed/part_001).

Modelling conventions:
- JavaScript numbers are modelled as real numbers.
- Entity ids (random UUID strings in the source) are modelled as natural
  numbers; functions that create entities take the fresh ids as parameters.
- Display-only attributes (color, virus spike count) are omitted.
- Calls to the random generator (fragment angles of a virus explosion,
  spawn positions) are modelled as explicit parameters.
- `Date.now()` is modelled as an explicit `now : ℝ` parameter; all reads of
  the clock within one tick return the same value.
- `Math.cos (Math.atan2 dy dx)` and `Math.sin (Math.atan2 dy dx)` are
  translated through the exact identities `cos (atan2 dy dx) = dx / d` and
  `sin (atan2 dy dx) = dy / d` for `d = sqrt (dx^2 + dy^2) ≠ 0`, and
  `atan2 0 0 = 0` (hence cos 1, sin 0) in the degenerate case.
-/

namespace Game

noncomputable section

/-! ### Constants (src/constants.ts) -/

def MAP_WIDTH : ℝ := 4000
def MAP_HEIGHT : ℝ := 4000
def INITIAL_MASS : ℝ := 15
def MIN_MASS_TO_SPLIT : ℝ := 35
def MIN_MASS_TO_EJECT : ℝ := 35
def EJECT_MASS_LOSS : ℝ := 16
def EJECT_MASS_GAIN : ℝ := 12
def MAX_CELLS : ℕ := 16
def MERGE_COOLDOWN_MS : ℝ := 15000
def VIRUS_MASS : ℝ := 100
def VIRUS_BONUS_MASS : ℝ := 150
def BASE_SPEED : ℝ := 6
def FRICTION : ℝ := 0.9
def SPLIT_IMPULSE : ℝ := 25
def EJECT_IMPULSE : ℝ := 15
def MASS_DECAY_RATE : ℝ := 0.9999
def MASS_DECAY_THRESHOLD : ℝ := 100
def SWARM_GRAVITY : ℝ := 0.02
def GAME_DURATION_MS : ℝ := 12 * 60 * 1000
def RESPAWN_DELAY_MS : ℝ := 3000
def BOT_SPEED_FACTOR : ℝ := 0.6

/-! ### Math utilities (src/unnamed/part_000) -/

/-- massToRadius: `Math.sqrt (mass * 100 / Math.PI)`. -/
def massToRadius (mass : ℝ) : ℝ := Real.sqrt (mass * 100 / Real.pi)

/-- radiusToMass: `(r * r * Math.PI) / 100`. -/
def radiusToMass (r : ℝ) : ℝ := r * r * Real.pi / 100

/-- getDistance: `sqrt (dx*dx + dy*dy)` for `dx = p1.x - p2.x`,
`dy = p1.y - p2.y`. -/
def getDistance (p q : ℝ × ℝ) : ℝ :=
  Real.sqrt ((p.1 - q.1) * (p.1 - q.1) + (p.2 - q.2) * (p.2 - q.2))

/-! ### Entity records (src/unnamed/part_002) -/

/-- A player or bot cell (interface `PlayerCell`): position, derived radius,
mass, velocity, merge-cooldown timestamp and creation timestamp.  The
string id is modelled as a natural number. -/
structure Cell where
  id : ℕ
  x : ℝ
  y : ℝ
  radius : ℝ
  mass : ℝ
  vx : ℝ
  vy : ℝ
  mergeTimer : ℝ
  createdAt : ℝ

/-- An ejected-mass blob (interface `EjectedMass`). -/
structure Blob where
  id : ℕ
  x : ℝ
  y : ℝ
  radius : ℝ
  vx : ℝ
  vy : ℝ
  mass : ℝ
  ownerId : ℕ
  createdAt : ℝ

/-- A food pellet (interface `Food`); static, no velocity. -/
structure Food where
  id : ℕ
  x : ℝ
  y : ℝ
  radius : ℝ

/-- A virus (interface `Virus`); static.  The visual spike count is
omitted. -/
structure Virus where
  id : ℕ
  x : ℝ
  y : ℝ
  radius : ℝ

/-- A bot controller (interface `Bot`): its cells, its current AI target and
an optional death timestamp. -/
structure Bot where
  id : ℕ
  cells : List Cell
  target : ℝ × ℝ
  deadAt : Option ℝ

/-- The aggregate world snapshot (interface `GameState`). -/
structure GameState where
  playerCells : List Cell
  bots : List Bot
  foods : List Food
  viruses : List Virus
  ejectedMass : List Blob
  camera : ℝ × ℝ
  scale : ℝ
  score : ℤ
  gameOver : Bool
  gameStarted : Bool
  gameEndTime : ℝ

def Cell.pos (c : Cell) : ℝ × ℝ := (c.x, c.y)

def Blob.pos (b : Blob) : ℝ × ℝ := (b.x, b.y)

/-- Sum of the masses of a list of cells. -/
def totalMass (cells : List Cell) : ℝ := (cells.map Cell.mass).sum

/-- Swap-with-last-and-pop removal used by the food, virus and ejected-mass
stages: `arr[i] = arr[arr.length - 1]; arr.pop()`. -/
def swapPop {α : Type} (l : List α) (i : ℕ) : List α :=
  match l.getLast? with
  | none => l
  | some a => (l.set i a).dropLast

/-! ### Split intent processing (part_001 lines 253-285)

For each cell of the actor, while the running cell count (starting at the
current length, incremented per split) is below `MAX_CELLS` and the cell's
mass is at least `MIN_MASS_TO_SPLIT`, the cell's mass is halved (radius
recomputed) and a sibling cell is created ahead along the movement
direction.  `count` is the running cell count, `n` counts created cells
(used to index the fresh ids). -/

def splitLoop (now dirX dirY : ℝ) (ids : ℕ → ℕ) :
    List Cell → ℕ → ℕ → List Cell × List Cell
  | [], _, _ => ([], [])
  | cell :: rest, count, n =>
    if MIN_MASS_TO_SPLIT ≤ cell.mass ∧ count < MAX_CELLS then
      let splitMass := cell.mass / 2
      let c : Cell := { cell with mass := splitMass, radius := massToRadius splitMass }
      let newCell : Cell :=
        { c with
          id := ids n
          x := c.x + dirX * c.radius
          y := c.y + dirY * c.radius
          vx := c.vx + dirX * SPLIT_IMPULSE
          vy := c.vy + dirY * SPLIT_IMPULSE
          mergeTimer := now + MERGE_COOLDOWN_MS + splitMass * 20
          createdAt := now }
      let p := splitLoop now dirX dirY ids rest (count + 1) (n + 1)
      (c :: p.1, newCell :: p.2)
    else
      let p := splitLoop now dirX dirY ids rest count n
      (cell :: p.1, p.2)

/-- The number of cells that split in one batch (mirrors the guard of
`splitLoop`). -/
def splitCount : List Cell → ℕ → ℕ
  | [], _ => 0
  | cell :: rest, count =>
    if MIN_MASS_TO_SPLIT ≤ cell.mass ∧ count < MAX_CELLS then
      splitCount rest (count + 1) + 1
    else
      splitCount rest count

/-- Processing one split intent: run the loop with the running count
initialised to the current cell count, then append the new cells
(`state.playerCells = [...state.playerCells, ...newCells]`). -/
def splitCells (now dirX dirY : ℝ) (ids : ℕ → ℕ) (cells : List Cell) : List Cell :=
  let p := splitLoop now dirX dirY ids cells cells.length 0
  p.1 ++ p.2

/-! ### Basic properties of the split loop -/

lemma splitLoop_length (now dirX dirY : ℝ) (ids : ℕ → ℕ) :
    ∀ (cells : List Cell) (count n : ℕ),
      (splitLoop now dirX dirY ids cells count n).1.length = cells.length ∧
      (splitLoop now dirX dirY ids cells count n).2.length = splitCount cells count := by
  intro cells
  induction cells with
  | nil => intro count n; simp [splitLoop, splitCount]
  | cons cell rest ih =>
    intro count n
    by_cases h : MIN_MASS_TO_SPLIT ≤ cell.mass ∧ count < MAX_CELLS
    · simp only [splitLoop, splitCount, if_pos h, List.length_cons]
      have := ih (count + 1) (n + 1)
      omega
    · simp only [splitLoop, splitCount, if_neg h, List.length_cons]
      have := ih count n
      omega

lemma splitLoop_mass (now dirX dirY : ℝ) (ids : ℕ → ℕ) :
    ∀ (cells : List Cell) (count n : ℕ),
      totalMass (splitLoop now dirX dirY ids cells count n).1 +
        totalMass (splitLoop now dirX dirY ids cells count n).2 = totalMass cells := by
  intro cells
  induction cells with
  | nil => intro count n; simp [splitLoop, totalMass]
  | cons cell rest ih =>
    intro count n
    by_cases h : MIN_MASS_TO_SPLIT ≤ cell.mass ∧ count < MAX_CELLS
    · simp only [splitLoop, if_pos h, totalMass, List.map_cons, List.sum_cons]
      have := ih (count + 1) (n + 1)
      simp only [totalMass] at this
      ring_nf
      ring_nf at this
      linarith
    · simp only [splitLoop, if_neg h, totalMass, List.map_cons, List.sum_cons]
      have := ih count n
      simp only [totalMass] at this
      linarith

lemma splitLoop_keep (now dirX dirY : ℝ) (ids : ℕ → ℕ) :
    ∀ (cells : List Cell) (count n i : ℕ) (h : i < cells.length),
      (cells.get ⟨i, h⟩).mass < MIN_MASS_TO_SPLIT →
      (splitLoop now dirX dirY ids cells count n).1.get? i = some (cells.get ⟨i, h⟩) := by
  intro cells
  induction cells with
  | nil => intro count n i h; simp at h
  | cons cell rest ih =>
    intro count n i h hm
    by_cases hc : MIN_MASS_TO_SPLIT ≤ cell.mass ∧ count < MAX_CELLS
    · cases i with
      | zero =>
        exfalso
        simp only [List.get] at hm
        exact absurd hc.1 (not_le.mpr hm)
      | succ i' =>
        simp only [splitLoop, if_pos hc, List.get?_cons_succ]
        exact ih (count + 1) (n + 1) i' (by simpa using h) (by simpa using hm)
    · cases i with
      | zero => simp [splitLoop, if_neg hc]
      | succ i' =>
        simp only [splitLoop, if_neg hc, List.get?_cons_succ]
        exact ih count n i' (by simpa using h) (by simpa using hm)

/-- Claim C1: for every player cell with mass at least `MIN_MASS_TO_SPLIT`
(35) and while the running cell count is below the cap (16), processing one
split intent leaves the actor's total mass unchanged, increases the cell
count by exactly one per cell that split, and a below-threshold cell is left
completely unchanged (in particular it keeps its mass and produces no new
cell). -/
theorem split_mass_conserved_count_per_split (now dirX dirY : ℝ) (ids : ℕ → ℕ)
    (cells : List Cell) :
    totalMass (splitCells now dirX dirY ids cells) = totalMass cells ∧
    (splitCells now dirX dirY ids cells).length =
      cells.length + splitCount cells cells.length ∧
    (∀ i (h : i < cells.length), (cells.get ⟨i, h⟩).mass < MIN_MASS_TO_SPLIT →
      (splitLoop now dirX dirY ids cells cells.length 0).1.get? i =
        some (cells.get ⟨i, h⟩)) := by
  refine ⟨?_, ?_, ?_⟩
  · have := splitLoop_mass now dirX dirY ids cells cells.length 0
    simp only [splitCells, totalMass, List.map_append, List.sum_append]
    simp only [totalMass] at this
    linarith
  · have := splitLoop_length now dirX dirY ids cells cells.length 0
    simp only [splitCells, List.length_append]
    omega
  · intro i h hm
    exact splitLoop_keep now dirX dirY ids cells cells.length 0 i h hm

/-- Witness for C1: a single cell of mass 15 (below the threshold 35) issues
a split intent; the total mass stays 15, no new cell appears, and the cell
itself is unchanged. -/
theorem split_mass_conserved_count_per_split_witness :
    totalMass (splitCells 0 1 0 (fun _ => 0)
        [⟨0, 7, 8, 9, 15, 0, 0, 0, 0⟩]) = totalMass [⟨0, 7, 8, 9, 15, 0, 0, 0, 0⟩] ∧
    (splitLoop 0 1 0 (fun _ => 0) [⟨0, 7, 8, 9, 15, 0, 0, 0, 0⟩] 1 0).1.get? 0 =
      some ⟨0, 7, 8, 9, 15, 0, 0, 0, 0⟩ := by
  have h := split_mass_conserved_count_per_split 0 1 0 (fun _ => 0)
    [⟨0, 7, 8, 9, 15, 0, 0, 0, 0⟩]
  refine ⟨h.1, ?_⟩
  have h3 := h.2.2 0 (by simp) (by simp [MIN_MASS_TO_SPLIT]; norm_num)
  simpa using h3

lemma massToRadius_lt_massToRadius {a b : ℝ} (ha : 0 ≤ a) (hab : a < b) :
    massToRadius a < massToRadius b := by
  unfold massToRadius
  apply Real.sqrt_lt_sqrt
  · positivity
  · rw [div_lt_div_iff_of_pos_right Real.pi_pos]
    nlinarith

lemma splitCells_mass40 (cid : ℕ) (x y vx vy mt ct now : ℝ) (ids : ℕ → ℕ) :
    splitCells now 1 0 ids [⟨cid, x, y, massToRadius 40, 40, vx, vy, mt, ct⟩] =
      [⟨cid, x, y, massToRadius 20, 20, vx, vy, mt, ct⟩,
       ⟨ids 0, x + 1 * massToRadius 20, y + 0 * massToRadius 20, massToRadius 20, 20,
        vx + 1 * SPLIT_IMPULSE, vy + 0 * SPLIT_IMPULSE,
        now + MERGE_COOLDOWN_MS + 20 * 20, now⟩] := by
  have h40 : (40 : ℝ) / 2 = 20 := by norm_num
  simp only [splitCells, splitLoop, List.length_singleton]
  rw [if_pos]
  · simp [h40]
  · exact ⟨by norm_num [MIN_MASS_TO_SPLIT], by norm_num [MAX_CELLS]⟩

/-- Claim C2 (amended): if the player has exactly one cell of mass 40 and
issues a split intent with movement direction (1,0), then afterwards there
are two cells each of mass 20, the new cell's x position equals the original
cell's x plus the radius corresponding to the halved mass 20 (the code
recomputes the radius before positioning the sibling), the new cell's merge
timer equals now + 15000 + 400 (strictly greater than now + 15000 ms), and
the original cell's merge timer is unchanged. -/
theorem split_scenario_mass40 (cid : ℕ) (x y vx vy mt ct now : ℝ) (ids : ℕ → ℕ) :
    (splitCells now 1 0 ids [⟨cid, x, y, massToRadius 40, 40, vx, vy, mt, ct⟩]).map
        Cell.mass = [20, 20] ∧
    ((splitCells now 1 0 ids [⟨cid, x, y, massToRadius 40, 40, vx, vy, mt, ct⟩]).get? 1).map
        Cell.x = some (x + massToRadius 20) ∧
    ((splitCells now 1 0 ids [⟨cid, x, y, massToRadius 40, 40, vx, vy, mt, ct⟩]).get? 1).map
        Cell.mergeTimer = some (now + MERGE_COOLDOWN_MS + 400) ∧
    now + MERGE_COOLDOWN_MS < now + MERGE_COOLDOWN_MS + 400 ∧
    ((splitCells now 1 0 ids [⟨cid, x, y, massToRadius 40, 40, vx, vy, mt, ct⟩]).get? 0).map
        Cell.mergeTimer = some mt := by
  rw [splitCells_mass40]
  refine ⟨by simp, by simp, by norm_num, by norm_num, by simp⟩

/-- Claim C2 counterexample: for a cell of mass 40 at the origin with merge
timer 0 splitting at now = 0 along (1,0), the new cell's x position is NOT
the original x plus the radius corresponding to mass 40 (it is the radius
corresponding to mass 20), and it is NOT the case that both resulting cells
have a merge timer strictly greater than now + 15000 (the original cell's
timer is still 0). -/
theorem split_scenario_mass40_cex :
    ¬ (((splitCells 0 1 0 (fun _ => 0)
          [⟨0, 0, 0, massToRadius 40, 40, 0, 0, 0, 0⟩]).get? 1).map Cell.x =
        some ((0 : ℝ) + massToRadius 40)) ∧
    ¬ (∀ cell ∈ splitCells 0 1 0 (fun _ => 0)
          [⟨0, 0, 0, massToRadius 40, 40, 0, 0, 0, 0⟩],
        (0 : ℝ) + MERGE_COOLDOWN_MS < cell.mergeTimer) := by
  rw [splitCells_mass40]
  constructor
  · intro h
    simp only [List.get?, Option.map_some] at h
    have hx : (0 : ℝ) + 1 * massToRadius 20 = 0 + massToRadius 40 :=
      congrArg (fun o => o.getD 0) h
    have hlt : massToRadius 20 < massToRadius 40 :=
      massToRadius_lt_massToRadius (by norm_num) (by norm_num)
    rw [one_mul] at hx
    linarith
  · intro h
    have := h ⟨0, 0, 0, massToRadius 20, 20, 0, 0, 0, 0⟩ (by simp)
    norm_num [MERGE_COOLDOWN_MS] at this

/-! ### Self-collision (part_001 lines 482-514 for the player, 450-476 for
bots; the two loops have identical collision logic)

Nested index loops `i`, `j > i` over one actor's cells.  If two cells
overlap, they merge when `now` is strictly past both merge timers (second
cell removed by `splice(j, 1)` followed by `j--`, so the same `j` is
re-examined); otherwise they are pushed apart symmetrically by half the
overlap along the line connecting the centers. -/

inductive PairOutcome where
  | noOverlap : PairOutcome
  | merged : Cell → PairOutcome
  | pushed : Cell → Cell → PairOutcome

/-- The body of the pairwise self-collision check for `c1 = cells[i]`,
`c2 = cells[j]`. -/
def collidePair (now : ℝ) (c1 c2 : Cell) : PairOutcome :=
  let dist := getDistance c1.pos c2.pos
  let minDist := c1.radius + c2.radius
  if dist < minDist then
    if c1.mergeTimer < now ∧ c2.mergeTimer < now then
      PairOutcome.merged
        { c1 with mass := c1.mass + c2.mass, radius := massToRadius (c1.mass + c2.mass) }
    else
      let dx := c2.x - c1.x
      let dy := c2.y - c1.y
      let ux := if dist = 0 then 1 else dx / dist
      let uy := if dist = 0 then 0 else dy / dist
      let force := (minDist - dist) / 2
      PairOutcome.pushed
        { c1 with x := c1.x - ux * force, y := c1.y - uy * force }
        { c2 with x := c2.x + ux * force, y := c2.y + uy * force }
  else PairOutcome.noOverlap

/-- Inner loop over `j`: on a merge the updated first cell is written back,
the second cell is removed and the same index `j` is re-examined; otherwise
`j` advances. -/
def selfInner (now : ℝ) (i : ℕ) (cells : List Cell) (j : ℕ) : List Cell :=
  if hj : j < cells.length then
    if hi : i < cells.length then
      match collidePair now (cells.get ⟨i, hi⟩) (cells.get ⟨j, hj⟩) with
      | PairOutcome.merged c1' => selfInner now i ((cells.set i c1').eraseIdx j) j
      | PairOutcome.pushed c1' c2' => selfInner now i ((cells.set i c1').set j c2') (j + 1)
      | PairOutcome.noOverlap => selfInner now i cells (j + 1)
    else cells
  else cells
termination_by cells.length - j
decreasing_by
  · have h2 := List.length_eraseIdx_add_one (l := cells.set i c1') (i := j)
      (by simpa using hj)
    simp only [List.length_set] at h2 ⊢
    omega
  · simp only [List.length_set]
    omega
  · omega

lemma selfInner_length_le (now : ℝ) (i : ℕ) :
    ∀ (n : ℕ) (cells : List Cell) (j : ℕ), cells.length - j ≤ n →
      (selfInner now i cells j).length ≤ cells.length := by
  intro n
  induction n with
  | zero =>
    intro cells j h
    rw [selfInner]
    have hj : ¬ j < cells.length := by omega
    simp [hj]
  | succ n ih =>
    intro cells j h
    rw [selfInner]
    by_cases hj : j < cells.length
    · by_cases hi : i < cells.length
      · simp only [dif_pos hj, dif_pos hi]
        cases hcp : collidePair now (cells.get ⟨i, hi⟩) (cells.get ⟨j, hj⟩) with
        | noOverlap => exact ih cells (j + 1) (by omega)
        | merged c1' =>
          have he := List.length_eraseIdx_add_one (l := cells.set i c1') (i := j)
            (by simpa using hj)
          simp only [List.length_set] at he
          have hrec := ih ((cells.set i c1').eraseIdx j) j (by omega)
          show (selfInner now i ((cells.set i c1').eraseIdx j) j).length ≤ cells.length
          omega
        | pushed c1' c2' =>
          have := ih ((cells.set i c1').set j c2') (j + 1)
            (by simp only [List.length_set]; omega)
          simp only [List.length_set] at this
          exact this
      · simp [dif_pos hj, dif_neg hi]
    · simp [dif_neg hj]

/-- Outer loop over `i`; the loop bound `cells.length` is re-read every
iteration, matching the JavaScript `for` loop over a shrinking array. -/
def selfOuter (now : ℝ) (cells : List Cell) (i : ℕ) : List Cell :=
  if h : i < cells.length then selfOuter now (selfInner now i cells (i + 1)) (i + 1)
  else cells
termination_by cells.length - i
decreasing_by
  have := selfInner_length_le now i (cells.length - (i + 1)) cells (i + 1) le_rfl
  omega

/-- The whole self-collision pass of one actor. -/
def selfCollide (now : ℝ) (cells : List Cell) : List Cell := selfOuter now cells 0

lemma selfInner_stop (now : ℝ) (i : ℕ) (cells : List Cell) (j : ℕ)
    (h : ¬ j < cells.length) : selfInner now i cells j = cells := by
  rw [selfInner]; simp [h]

lemma selfOuter_stop (now : ℝ) (cells : List Cell) (i : ℕ)
    (h : ¬ i < cells.length) : selfOuter now cells i = cells := by
  rw [selfOuter]; simp [h]

/-- On a two-cell actor the self-collision pass performs the pairwise check
exactly once. -/
lemma selfCollide_two (now : ℝ) (c1 c2 : Cell) :
    selfCollide now [c1, c2] =
      match collidePair now c1 c2 with
      | PairOutcome.noOverlap => [c1, c2]
      | PairOutcome.merged c1' => [c1']
      | PairOutcome.pushed c1' c2' => [c1', c2'] := by
  unfold selfCollide
  rw [selfOuter]
  simp only [List.length_cons, List.length_nil, dif_pos (by omega : 0 < 0 + 1 + 1)]
  rw [selfInner]
  simp only [List.length_cons, List.length_nil, dif_pos (by omega : 1 < 0 + 1 + 1),
    dif_pos (by omega : 0 < 0 + 1 + 1)]
  cases hcp : collidePair now c1 c2 with
  | noOverlap =>
    simp only [List.get]
    rw [hcp]
    rw [selfInner_stop now 0 [c1, c2] 2 (by simp)]
    rw [selfOuter]
    simp only [List.length_cons, List.length_nil, dif_pos (by omega : 1 < 0 + 1 + 1)]
    rw [selfInner_stop now 1 [c1, c2] 2 (by simp)]
    rw [selfOuter_stop now [c1, c2] 2 (by simp)]
  | merged c1' =>
    simp only [List.get]
    rw [hcp]
    simp only [List.set_cons_zero, List.eraseIdx]
    rw [selfInner_stop now 0 [c1'] 1 (by simp)]
    rw [selfOuter_stop now [c1'] 1 (by simp)]
  | pushed c1' c2' =>
    simp only [List.get]
    rw [hcp]
    simp only [List.set_cons_zero, List.set_cons_succ, List.set_cons_zero]
    rw [selfInner_stop now 0 [c1', c2'] 2 (by simp)]
    rw [selfOuter]
    simp only [List.length_cons, List.length_nil, dif_pos (by omega : 1 < 0 + 1 + 1)]
    rw [selfInner_stop now 1 [c1', c2'] 2 (by simp)]
    rw [selfOuter_stop now [c1', c2'] 2 (by simp)]

/-- Claim C3: two sibling cells never merge unless `now` is strictly past
both merge timers (their masses are then unchanged); when `now` is past both
timers and the circles overlap, exactly one merge occurs for the pair in the
tick (the pair becomes a single cell) and the merged mass is the sum of the
two pre-merge masses; an overlapping pair that may not merge is pushed apart
symmetrically, both cells moving by opposite displacements whose length is
half the overlap. -/
theorem self_collision_merge_rules (now : ℝ) (c1 c2 : Cell) :
    (¬ (c1.mergeTimer < now ∧ c2.mergeTimer < now) →
      (selfCollide now [c1, c2]).map Cell.mass = [c1.mass, c2.mass]) ∧
    (getDistance c1.pos c2.pos < c1.radius + c2.radius →
      c1.mergeTimer < now → c2.mergeTimer < now →
      (selfCollide now [c1, c2]).map Cell.mass = [c1.mass + c2.mass]) ∧
    (getDistance c1.pos c2.pos < c1.radius + c2.radius →
      ¬ (c1.mergeTimer < now ∧ c2.mergeTimer < now) →
      ∃ v : ℝ × ℝ,
        selfCollide now [c1, c2] =
          [{ c1 with x := c1.x - v.1, y := c1.y - v.2 },
           { c2 with x := c2.x + v.1, y := c2.y + v.2 }] ∧
        v.1 ^ 2 + v.2 ^ 2 =
          ((c1.radius + c2.radius - getDistance c1.pos c2.pos) / 2) ^ 2) := by
  refine ⟨?_, ?_, ?_⟩
  · intro hno
    rw [selfCollide_two]
    by_cases hov : getDistance c1.pos c2.pos < c1.radius + c2.radius
    · simp only [collidePair, if_pos hov, if_neg hno]
      simp
    · simp only [collidePair, if_neg hov]
      simp
  · intro hov h1 h2
    rw [selfCollide_two]
    simp only [collidePair, if_pos hov, if_pos (And.intro h1 h2)]
    simp
  · intro hov hno
    rw [selfCollide_two]
    simp only [collidePair, if_pos hov, if_neg hno]
    set dist := getDistance c1.pos c2.pos with hdist
    by_cases hd : dist = 0
    · refine ⟨(1 * ((c1.radius + c2.radius - dist) / 2),
               0 * ((c1.radius + c2.radius - dist) / 2)), ?_, ?_⟩
      · simp [hd]
      · ring
    · refine ⟨((c2.x - c1.x) / dist * ((c1.radius + c2.radius - dist) / 2),
               (c2.y - c1.y) / dist * ((c1.radius + c2.radius - dist) / 2)), ?_, ?_⟩
      · simp [hd]
      · have hnn : 0 ≤ (c1.pos.1 - c2.pos.1) * (c1.pos.1 - c2.pos.1) +
            (c1.pos.2 - c2.pos.2) * (c1.pos.2 - c2.pos.2) :=
          add_nonneg (mul_self_nonneg _) (mul_self_nonneg _)
        have hsq : dist ^ 2 = (c1.x - c2.x) * (c1.x - c2.x) +
            (c1.y - c2.y) * (c1.y - c2.y) := by
          rw [hdist]
          unfold getDistance
          rw [Real.sq_sqrt hnn]
          simp [Cell.pos]
        have hdx : (c2.x - c1.x) * (c2.x - c1.x) + (c2.y - c1.y) * (c2.y - c1.y) =
            dist ^ 2 := by rw [hsq]; ring
        calc ((c2.x - c1.x) / dist * ((c1.radius + c2.radius - dist) / 2)) ^ 2 +
              ((c2.y - c1.y) / dist * ((c1.radius + c2.radius - dist) / 2)) ^ 2
            = ((c2.x - c1.x) * (c2.x - c1.x) + (c2.y - c1.y) * (c2.y - c1.y)) *
                ((c1.radius + c2.radius - dist) / 2) ^ 2 / dist ^ 2 := by ring
          _ = dist ^ 2 * ((c1.radius + c2.radius - dist) / 2) ^ 2 / dist ^ 2 := by
                rw [hdx]
          _ = ((c1.radius + c2.radius - dist) / 2) ^ 2 := by
                field_simp
                ring

/-- Witness for C3: two coincident cells of mass 10 whose merge timers (0)
have both elapsed at `now = 1` merge into a single cell of mass 20. -/
theorem self_collision_merge_rules_witness :
    (selfCollide 1 [⟨0, 0, 0, 5, 10, 0, 0, 0, 0⟩, ⟨1, 0, 0, 5, 10, 0, 0, 0, 0⟩]).map
      Cell.mass = [20] := by
  have h := (self_collision_merge_rules 1 ⟨0, 0, 0, 5, 10, 0, 0, 0, 0⟩
    ⟨1, 0, 0, 5, 10, 0, 0, 0, 0⟩).2.1
  have hd : getDistance (Cell.pos ⟨0, 0, 0, 5, 10, 0, 0, 0, 0⟩)
      (Cell.pos ⟨1, 0, 0, 5, 10, 0, 0, 0, 0⟩) <
      (Cell.radius ⟨0, 0, 0, 5, 10, 0, 0, 0, 0⟩) +
      (Cell.radius ⟨1, 0, 0, 5, 10, 0, 0, 0, 0⟩) := by
    simp [getDistance, Cell.pos]
  have := h hd (by norm_num) (by norm_num)
  norm_num at this
  exact this

/-! ### Physics and movement integration (part_001 lines 330-369 for the
player, 426-447 for bot cells)

Decay, input acceleration, swarm gravity (player only), friction, Euler
integration, then boundary clamping.  `hasInput` models `len > 0` for the
normalized input vector `(moveX, moveY)`; `cellCount` is the actor's current
cell count; `(comX, comY)` is the mass-weighted center of mass. -/

def integrateCell (moveX moveY : ℝ) (hasInput : Bool) (cellCount : ℕ)
    (comX comY : ℝ) (cell : Cell) : Cell :=
  let cell := if MASS_DECAY_THRESHOLD < cell.mass then
      { cell with mass := cell.mass * MASS_DECAY_RATE,
                  radius := massToRadius (cell.mass * MASS_DECAY_RATE) }
    else cell
  let speed := BASE_SPEED * cell.mass ^ (-0.439 : ℝ) * 4
  let cell := if hasInput then
      { cell with vx := cell.vx + moveX * speed * 0.1,
                  vy := cell.vy + moveY * speed * 0.1 }
    else cell
  let cell := if 1 < cellCount then
      let distToCenter := getDistance cell.pos (comX, comY)
      if cell.radius < distToCenter then
        let gravityForce := SWARM_GRAVITY * (cell.mass / 100)
        let ux := if distToCenter = 0 then 1 else (comX - cell.x) / distToCenter
        let uy := if distToCenter = 0 then 0 else (comY - cell.y) / distToCenter
        { cell with vx := cell.vx + ux * gravityForce,
                    vy := cell.vy + uy * gravityForce }
      else cell
    else cell
  let cell := { cell with vx := cell.vx * FRICTION, vy := cell.vy * FRICTION }
  let cell := { cell with x := cell.x + cell.vx, y := cell.y + cell.vy }
  { cell with
    x := max cell.radius (min (MAP_WIDTH - cell.radius) cell.x),
    y := max cell.radius (min (MAP_HEIGHT - cell.radius) cell.y) }

/-- Bot-cell integration: decay, steering toward the target `(tx, ty)` at
bot speed, friction, Euler step, boundary clamp. -/
def integrateBotCell (tx ty : ℝ) (cell : Cell) : Cell :=
  let cell := if MASS_DECAY_THRESHOLD < cell.mass then
      { cell with mass := cell.mass * MASS_DECAY_RATE,
                  radius := massToRadius (cell.mass * MASS_DECAY_RATE) }
    else cell
  let speed := (BASE_SPEED * cell.mass ^ (-0.439 : ℝ) * 4) * BOT_SPEED_FACTOR
  let d := Real.sqrt ((tx - cell.x) * (tx - cell.x) + (ty - cell.y) * (ty - cell.y))
  let ux := if d = 0 then 1 else (tx - cell.x) / d
  let uy := if d = 0 then 0 else (ty - cell.y) / d
  let cell := { cell with vx := cell.vx + ux * speed * 0.1,
                          vy := cell.vy + uy * speed * 0.1 }
  let cell := { cell with vx := cell.vx * FRICTION, vy := cell.vy * FRICTION }
  let cell := { cell with x := cell.x + cell.vx, y := cell.y + cell.vy }
  { cell with
    x := max cell.radius (min (MAP_WIDTH - cell.radius) cell.x),
    y := max cell.radius (min (MAP_HEIGHT - cell.radius) cell.y) }

/-! ### Ejected-mass physics (part_001 lines 678-687)

The boundary check ("bounce instead of delete") runs BEFORE the position is
advanced by the velocity: position pinned to the boundary, velocity sign
flipped; then `x += vx; vx *= 0.9`. -/

def blobReflect (b : Blob) : Blob :=
  let b := if b.x ≤ 0 then { b with x := 0, vx := -b.vx } else b
  let b := if MAP_WIDTH ≤ b.x then { b with x := MAP_WIDTH, vx := -b.vx } else b
  let b := if b.y ≤ 0 then { b with y := 0, vy := -b.vy } else b
  let b := if MAP_HEIGHT ≤ b.y then { b with y := MAP_HEIGHT, vy := -b.vy } else b
  b

def blobIntegrate (b : Blob) : Blob :=
  let b := { b with x := b.x + b.vx, y := b.y + b.vy }
  { b with vx := b.vx * 0.9, vy := b.vy * 0.9 }

/-- One tick of ejected-blob movement: reflection first, then integration
and damping. -/
def blobPhysics (b : Blob) : Blob := blobIntegrate (blobReflect b)

lemma clamp_bounds {r hi z : ℝ} (h : r ≤ hi - r) :
    r ≤ max r (min (hi - r) z) ∧ max r (min (hi - r) z) ≤ hi - r :=
  ⟨le_max_left _ _, max_le h (min_le_left _ _)⟩

lemma integrateCell_clamped (moveX moveY : ℝ) (hasInput : Bool) (cellCount : ℕ)
    (comX comY : ℝ) (cell : Cell) :
    ∃ z w : ℝ,
      (integrateCell moveX moveY hasInput cellCount comX comY cell).x =
        max (integrateCell moveX moveY hasInput cellCount comX comY cell).radius
          (min (MAP_WIDTH -
            (integrateCell moveX moveY hasInput cellCount comX comY cell).radius) z) ∧
      (integrateCell moveX moveY hasInput cellCount comX comY cell).y =
        max (integrateCell moveX moveY hasInput cellCount comX comY cell).radius
          (min (MAP_HEIGHT -
            (integrateCell moveX moveY hasInput cellCount comX comY cell).radius) w) :=
  ⟨_, _, rfl, rfl⟩

lemma integrateBotCell_clamped (tx ty : ℝ) (cell : Cell) :
    ∃ z w : ℝ,
      (integrateBotCell tx ty cell).x =
        max (integrateBotCell tx ty cell).radius
          (min (MAP_WIDTH - (integrateBotCell tx ty cell).radius) z) ∧
      (integrateBotCell tx ty cell).y =
        max (integrateBotCell tx ty cell).radius
          (min (MAP_HEIGHT - (integrateBotCell tx ty cell).radius) w) :=
  ⟨_, _, rfl, rfl⟩

lemma blobReflect_bounds (b : Blob) :
    (0 ≤ (blobReflect b).x ∧ (blobReflect b).x ≤ MAP_WIDTH) ∧
    (0 ≤ (blobReflect b).y ∧ (blobReflect b).y ≤ MAP_HEIGHT) := by
  unfold blobReflect
  simp only [apply_ite Blob.x, apply_ite Blob.y, MAP_WIDTH, MAP_HEIGHT, ite_self]
  refine ⟨⟨?_, ?_⟩, ?_, ?_⟩ <;>
    (split_ifs <;> (try push_neg at *) <;> linarith)

/-- Claim C6 (amended): after integration every player and bot cell whose
(possibly decayed) radius is at most half the map dimension satisfies
`radius ≤ x ≤ MAP_WIDTH - radius` and `radius ≤ y ≤ MAP_HEIGHT - radius`
(positions are clamped); the half-map proviso is forced — the
counterexample exhibits a consistent cell of radius above half the map for
which the clamp itself pins the position outside the claimed band.
Ejected blobs are pinned to the boundary with the velocity component's
sign flipped at the START of their per-tick update, so
`0 ≤ x ≤ MAP_WIDTH` and `0 ≤ y ≤ MAP_HEIGHT` hold after the reflection
step; the subsequent position integration of the same tick may leave the
blob out of bounds until the next tick's reflection. -/
theorem boundary_clamp_and_reflection (moveX moveY : ℝ) (hasInput : Bool)
    (cellCount : ℕ) (comX comY tx ty : ℝ) (cell bcell : Cell) (b : Blob) :
    ((integrateCell moveX moveY hasInput cellCount comX comY cell).radius ≤
        MAP_WIDTH -
          (integrateCell moveX moveY hasInput cellCount comX comY cell).radius →
      (integrateCell moveX moveY hasInput cellCount comX comY cell).radius ≤
          (integrateCell moveX moveY hasInput cellCount comX comY cell).x ∧
        (integrateCell moveX moveY hasInput cellCount comX comY cell).x ≤
          MAP_WIDTH -
            (integrateCell moveX moveY hasInput cellCount comX comY cell).radius) ∧
    ((integrateCell moveX moveY hasInput cellCount comX comY cell).radius ≤
        MAP_HEIGHT -
          (integrateCell moveX moveY hasInput cellCount comX comY cell).radius →
      (integrateCell moveX moveY hasInput cellCount comX comY cell).radius ≤
          (integrateCell moveX moveY hasInput cellCount comX comY cell).y ∧
        (integrateCell moveX moveY hasInput cellCount comX comY cell).y ≤
          MAP_HEIGHT -
            (integrateCell moveX moveY hasInput cellCount comX comY cell).radius) ∧
    ((integrateBotCell tx ty bcell).radius ≤
        MAP_WIDTH - (integrateBotCell tx ty bcell).radius →
      (integrateBotCell tx ty bcell).radius ≤ (integrateBotCell tx ty bcell).x ∧
        (integrateBotCell tx ty bcell).x ≤
          MAP_WIDTH - (integrateBotCell tx ty bcell).radius) ∧
    ((integrateBotCell tx ty bcell).radius ≤
        MAP_HEIGHT - (integrateBotCell tx ty bcell).radius →
      (integrateBotCell tx ty bcell).radius ≤ (integrateBotCell tx ty bcell).y ∧
        (integrateBotCell tx ty bcell).y ≤
          MAP_HEIGHT - (integrateBotCell tx ty bcell).radius) ∧
    ((0 ≤ (blobReflect b).x ∧ (blobReflect b).x ≤ MAP_WIDTH) ∧
      (0 ≤ (blobReflect b).y ∧ (blobReflect b).y ≤ MAP_HEIGHT)) := by
  obtain ⟨z, w, hx, hy⟩ :=
    integrateCell_clamped moveX moveY hasInput cellCount comX comY cell
  obtain ⟨zb, wb, hbx, hby⟩ := integrateBotCell_clamped tx ty bcell
  refine ⟨?_, ?_, ?_, ?_, blobReflect_bounds b⟩
  · intro h
    rw [hx]
    exact clamp_bounds h
  · intro h
    rw [hy]
    exact clamp_bounds h
  · intro h
    rw [hbx]
    exact clamp_bounds h
  · intro h
    rw [hby]
    exact clamp_bounds h

/-- Witness for C6: a single stationary cell of mass 50 and radius 10 at
(5, 7), both as a player cell and as a bot cell, ends the integration
inside `[radius, dimension - radius]` on both axes. -/
theorem boundary_clamp_and_reflection_witness :
    ((integrateCell 0 0 false 1 0 0 ⟨0, 5, 7, 10, 50, 0, 0, 0, 0⟩).radius ≤
        (integrateCell 0 0 false 1 0 0 ⟨0, 5, 7, 10, 50, 0, 0, 0, 0⟩).x ∧
      (integrateCell 0 0 false 1 0 0 ⟨0, 5, 7, 10, 50, 0, 0, 0, 0⟩).x ≤
        MAP_WIDTH -
          (integrateCell 0 0 false 1 0 0 ⟨0, 5, 7, 10, 50, 0, 0, 0, 0⟩).radius) ∧
    ((integrateCell 0 0 false 1 0 0 ⟨0, 5, 7, 10, 50, 0, 0, 0, 0⟩).radius ≤
        (integrateCell 0 0 false 1 0 0 ⟨0, 5, 7, 10, 50, 0, 0, 0, 0⟩).y ∧
      (integrateCell 0 0 false 1 0 0 ⟨0, 5, 7, 10, 50, 0, 0, 0, 0⟩).y ≤
        MAP_HEIGHT -
          (integrateCell 0 0 false 1 0 0 ⟨0, 5, 7, 10, 50, 0, 0, 0, 0⟩).radius) ∧
    ((integrateBotCell 0 0 ⟨0, 5, 7, 10, 50, 0, 0, 0, 0⟩).radius ≤
        (integrateBotCell 0 0 ⟨0, 5, 7, 10, 50, 0, 0, 0, 0⟩).x ∧
      (integrateBotCell 0 0 ⟨0, 5, 7, 10, 50, 0, 0, 0, 0⟩).x ≤
        MAP_WIDTH - (integrateBotCell 0 0 ⟨0, 5, 7, 10, 50, 0, 0, 0, 0⟩).radius) ∧
    ((integrateBotCell 0 0 ⟨0, 5, 7, 10, 50, 0, 0, 0, 0⟩).radius ≤
        (integrateBotCell 0 0 ⟨0, 5, 7, 10, 50, 0, 0, 0, 0⟩).y ∧
      (integrateBotCell 0 0 ⟨0, 5, 7, 10, 50, 0, 0, 0, 0⟩).y ≤
        MAP_HEIGHT - (integrateBotCell 0 0 ⟨0, 5, 7, 10, 50, 0, 0, 0, 0⟩).radius) := by
  have h := boundary_clamp_and_reflection 0 0 false 1 0 0 0 0
    ⟨0, 5, 7, 10, 50, 0, 0, 0, 0⟩ ⟨0, 5, 7, 10, 50, 0, 0, 0, 0⟩
    ⟨0, 0, 0, 2, 0, 0, 12, 0, 0⟩
  have hpr : (integrateCell 0 0 false 1 0 0 ⟨0, 5, 7, 10, 50, 0, 0, 0, 0⟩).radius
      = 10 := by
    norm_num [integrateCell, MASS_DECAY_THRESHOLD, apply_ite Cell.radius]
  have hbr : (integrateBotCell 0 0 ⟨0, 5, 7, 10, 50, 0, 0, 0, 0⟩).radius = 10 := by
    norm_num [integrateBotCell, MASS_DECAY_THRESHOLD, apply_ite Cell.radius]
  refine ⟨h.1 ?_, h.2.1 ?_, h.2.2.1 ?_, h.2.2.2.1 ?_⟩
  · rw [hpr]; norm_num [MAP_WIDTH]
  · rw [hpr]; norm_num [MAP_HEIGHT]
  · rw [hbr]; norm_num [MAP_WIDTH]
  · rw [hbr]; norm_num [MAP_HEIGHT]

/-- Claim C6 counterexample: (1) an ejected blob at x = 5 with vx = -18 is
in bounds when its update begins, is not reflected (5 > 0), and ends the
tick at x = -13, outside the map — the claimed post-integration invariant
`0 ≤ x ≤ MAP_WIDTH` fails; and (2) a consistent cell of mass
`radiusToMass 3000` (so radius 3000, above half the map) ends the
integration with `x = massToRadius(mass * decayRate) > 2000`, violating
the claimed `x ≤ MAP_WIDTH - radius` — the unrestricted cell invariant
fails too, forcing the half-map proviso of the amendment. -/
theorem boundary_reflection_cex :
    (blobPhysics ⟨0, 5, 100, 2, -18, 0, 12, 0, 0⟩).x = -13 ∧
    ¬ (0 ≤ (blobPhysics ⟨0, 5, 100, 2, -18, 0, 12, 0, 0⟩).x ∧
        (blobPhysics ⟨0, 5, 100, 2, -18, 0, 12, 0, 0⟩).x ≤ MAP_WIDTH) ∧
    ¬ ((integrateCell 0 0 false 1 0 0
          ⟨0, 5, 7, 3000, radiusToMass 3000, 0, 0, 0, 0⟩).x ≤
        MAP_WIDTH - (integrateCell 0 0 false 1 0 0
          ⟨0, 5, 7, 3000, radiusToMass 3000, 0, 0, 0, 0⟩).radius) := by
  have hx : (blobPhysics ⟨0, 5, 100, 2, -18, 0, 12, 0, 0⟩).x = -13 := by
    norm_num [blobPhysics, blobReflect, blobIntegrate, MAP_WIDTH, MAP_HEIGHT]
  refine ⟨hx, ?_, ?_⟩
  · rw [hx]
    intro hcon
    norm_num at hcon
  · have hπ := Real.pi_pos
    have hdec : MASS_DECAY_THRESHOLD < (radiusToMass 3000 : ℝ) := by
      unfold MASS_DECAY_THRESHOLD radiusToMass
      nlinarith [Real.pi_gt_three]
    have harg : radiusToMass 3000 * MASS_DECAY_RATE * 100 / Real.pi = 8999100 := by
      unfold radiusToMass MASS_DECAY_RATE
      field_simp
      ring_nf
    have hm2r : massToRadius (radiusToMass 3000 * MASS_DECAY_RATE) =
        Real.sqrt 8999100 := by
      unfold massToRadius
      rw [harg]
    have hrad : (integrateCell 0 0 false 1 0 0
        ⟨0, 5, 7, 3000, radiusToMass 3000, 0, 0, 0, 0⟩).radius =
        Real.sqrt 8999100 := by
      simp [integrateCell, hdec, apply_ite Cell.radius, hm2r]
    have h2000 : (2000 : ℝ) < Real.sqrt 8999100 :=
      (Real.lt_sqrt (by norm_num)).mpr (by norm_num)
    obtain ⟨z, w, hxc, -⟩ := integrateCell_clamped 0 0 false 1 0 0
      ⟨0, 5, 7, 3000, radiusToMass 3000, 0, 0, 0, 0⟩
    intro hcon
    have hge : (integrateCell 0 0 false 1 0 0
        ⟨0, 5, 7, 3000, radiusToMass 3000, 0, 0, 0, 0⟩).radius ≤
        (integrateCell 0 0 false 1 0 0
          ⟨0, 5, 7, 3000, radiusToMass 3000, 0, 0, 0, 0⟩).x := by
      rw [hxc]
      exact le_max_left _ _
    have hfin := le_trans hge hcon
    rw [hrad] at hfin
    unfold MAP_WIDTH at hfin
    linarith

/-! ### Eject intent processing (part_001 lines 287-313) -/

def ejectLoop (now dirX dirY : ℝ) (blobIds : ℕ → ℕ) :
    List Cell → ℕ → List Cell × List Blob
  | [], _ => ([], [])
  | cell :: rest, n =>
    if MIN_MASS_TO_EJECT ≤ cell.mass then
      let c : Cell := { cell with mass := cell.mass - EJECT_MASS_LOSS,
                                  radius := massToRadius (cell.mass - EJECT_MASS_LOSS) }
      let ejecta : Blob :=
        { id := blobIds n
          x := c.x + dirX * c.radius
          y := c.y + dirY * c.radius
          radius := massToRadius EJECT_MASS_GAIN
          vx := c.vx + dirX * EJECT_IMPULSE
          vy := c.vy + dirY * EJECT_IMPULSE
          mass := EJECT_MASS_GAIN
          ownerId := c.id
          createdAt := now }
      let p := ejectLoop now dirX dirY blobIds rest (n + 1)
      (c :: p.1, ejecta :: p.2)
    else
      let p := ejectLoop now dirX dirY blobIds rest n
      (cell :: p.1, p.2)

/-- Processing one eject intent: every cell with mass at least
`MIN_MASS_TO_EJECT` pays the fixed loss and emits one blob. -/
def ejectCells (now dirX dirY : ℝ) (blobIds : ℕ → ℕ) (cells : List Cell) :
    List Cell × List Blob :=
  ejectLoop now dirX dirY blobIds cells 0

/-! ### Virus interaction (part_001 lines 606-671) -/

/-- Player cell `cells[j]` explodes on a virus (lines 615-647): bonus mass
first, then up to `min (MAX_CELLS - cells.length) 6` fragments launched at
random angles (`angles k` is the k-th call of the random generator), the
original cell keeping one fragment's share. -/
def explodeCell (now : ℝ) (ids : ℕ → ℕ) (angles : ℕ → ℝ)
    (cells : List Cell) (j : ℕ) : List Cell :=
  match cells.get? j with
  | none => cells
  | some cell =>
    let cell : Cell := { cell with mass := cell.mass + VIRUS_BONUS_MASS,
                                   radius := massToRadius (cell.mass + VIRUS_BONUS_MASS) }
    let splitsRemaining : ℤ := (MAX_CELLS : ℤ) - cells.length
    let pieces : ℤ := min splitsRemaining 6
    if 0 < pieces then
      let massPerPiece := cell.mass / ((pieces : ℝ) + 1)
      let cell : Cell := { cell with mass := massPerPiece,
                                     radius := massToRadius massPerPiece }
      let frags := (List.range pieces.toNat).map (fun k =>
        { cell with
          id := ids k
          x := cell.x + Real.cos (angles k) * cell.radius
          y := cell.y + Real.sin (angles k) * cell.radius
          vx := Real.cos (angles k) * SPLIT_IMPULSE * 1.5
          vy := Real.sin (angles k) * SPLIT_IMPULSE * 1.5
          mergeTimer := now + MERGE_COOLDOWN_MS + 5000
          createdAt := now })
      cells.set j cell ++ frags
    else
      cells.set j cell

/-- A bot cell hitting a virus (lines 654-665): overlapping cells with mass
above `VIRUS_MASS * 1.1` receive the bonus and are then halved; bots do not
fragment. -/
def botVirusCell (virus : Virus) (cell : Cell) : Cell :=
  if getDistance cell.pos (virus.x, virus.y) < cell.radius ∧
      VIRUS_MASS * 1.1 < cell.mass then
    { cell with mass := (cell.mass + VIRUS_BONUS_MASS) / 2,
                radius := massToRadius ((cell.mass + VIRUS_BONUS_MASS) / 2) }
  else cell

/-- The bot branch of the virus check: `state.bots.forEach(bot =>
bot.cells.forEach(cell => ...))` — note there is no break, so every
qualifying cell of every bot is mutated for the same virus. -/
def botsVirusHit (virus : Virus) (bots : List Bot) : List Bot :=
  bots.map (fun b => { b with cells := b.cells.map (botVirusCell virus) })

/-! ### Cell-count cap lemmas -/

lemma splitCount_zero_of_ge : ∀ (cells : List Cell) (k : ℕ),
    MAX_CELLS ≤ k → splitCount cells k = 0 := by
  intro cells
  induction cells with
  | nil => intro k _; simp [splitCount]
  | cons c rest ih =>
    intro k hk
    have hnc : ¬ (MIN_MASS_TO_SPLIT ≤ c.mass ∧ k < MAX_CELLS) := by
      rintro ⟨-, h2⟩; omega
    simp [splitCount, hnc, ih k hk]

lemma splitCount_add_le : ∀ (cells : List Cell) (k : ℕ),
    k ≤ MAX_CELLS → k + splitCount cells k ≤ MAX_CELLS := by
  intro cells
  induction cells with
  | nil => intro k hk; simpa [splitCount] using hk
  | cons c rest ih =>
    intro k hk
    by_cases hc : MIN_MASS_TO_SPLIT ≤ c.mass ∧ k < MAX_CELLS
    · simp only [splitCount, if_pos hc]
      have := ih (k + 1) (by omega)
      omega
    · simp only [splitCount, if_neg hc]
      exact ih k hk

lemma splitLoop_atCap (now dirX dirY : ℝ) (ids : ℕ → ℕ) :
    ∀ (cells : List Cell) (count n : ℕ), MAX_CELLS ≤ count →
      splitLoop now dirX dirY ids cells count n = (cells, []) := by
  intro cells
  induction cells with
  | nil => intro count n _; simp [splitLoop]
  | cons c rest ih =>
    intro count n hk
    have hnc : ¬ (MIN_MASS_TO_SPLIT ≤ c.mass ∧ count < MAX_CELLS) := by
      rintro ⟨-, h2⟩; omega
    simp [splitLoop, hnc, ih count n hk]

lemma selfOuter_length_le (now : ℝ) :
    ∀ (n : ℕ) (cells : List Cell) (i : ℕ), cells.length - i ≤ n →
      (selfOuter now cells i).length ≤ cells.length := by
  intro n
  induction n with
  | zero =>
    intro cells i h
    rw [selfOuter]
    have hi : ¬ i < cells.length := by omega
    simp [hi]
  | succ n ih =>
    intro cells i h
    rw [selfOuter]
    by_cases hi : i < cells.length
    · simp only [dif_pos hi]
      have hin := selfInner_length_le now i (cells.length - (i + 1)) cells (i + 1) le_rfl
      have := ih (selfInner now i cells (i + 1)) (i + 1) (by omega)
      omega
    · simp [dif_neg hi]

lemma selfCollide_length_le (now : ℝ) (cells : List Cell) :
    (selfCollide now cells).length ≤ cells.length :=
  selfOuter_length_le now cells.length cells 0 (by omega)

/-- Claim C4: an actor's cell count never exceeds the cap of 16: a split
that would exceed the cap is silently skipped (the count check is
re-evaluated after each split — in particular a batch starting at the cap
does nothing at all), a virus explosion creates at most
`min (16 - current count) 6` fragments, and the merge pass never increases
the count. -/
theorem cell_count_cap (now dirX dirY : ℝ) (ids : ℕ → ℕ) (angles : ℕ → ℝ)
    (cells : List Cell) (j : ℕ) :
    (cells.length ≤ MAX_CELLS →
      (splitCells now dirX dirY ids cells).length ≤ MAX_CELLS) ∧
    (cells.length = MAX_CELLS → splitCells now dirX dirY ids cells = cells) ∧
    (cells.length ≤ MAX_CELLS →
      (explodeCell now ids angles cells j).length ≤ MAX_CELLS ∧
      ((explodeCell now ids angles cells j).length : ℤ) ≤
        (cells.length : ℤ) + min ((MAX_CELLS : ℤ) - cells.length) 6) ∧
    (selfCollide now cells).length ≤ cells.length := by
  refine ⟨?_, ?_, ?_, selfCollide_length_le now cells⟩
  · intro hle
    have h1 := (splitLoop_length now dirX dirY ids cells cells.length 0).1
    have h2 := (splitLoop_length now dirX dirY ids cells cells.length 0).2
    have h3 := splitCount_add_le cells cells.length hle
    simp only [splitCells, List.length_append]
    omega
  · intro heq
    simp only [splitCells, splitLoop_atCap now dirX dirY ids cells cells.length 0
      (le_of_eq heq.symm), List.append_nil]
  · intro hle
    unfold explodeCell
    cases hg : cells.get? j with
    | none => constructor <;> simp <;> omega
    | some cell =>
      simp only
      split_ifs with hp
      · simp only [List.length_append, List.length_set, List.length_map,
          List.length_range]
        omega
      · simp only [List.length_set]
        omega

/-- Witness for C4: a full actor of 16 cells of mass 100 each does not split
at all, and a singleton actor of mass 200 exploding on a virus ends with at
most 16 cells. -/
theorem cell_count_cap_witness :
    splitCells 0 1 0 (fun _ => 0)
        (List.replicate 16 ⟨0, 0, 0, 5, 100, 0, 0, 0, 0⟩) =
      List.replicate 16 ⟨0, 0, 0, 5, 100, 0, 0, 0, 0⟩ ∧
    (explodeCell 0 (fun _ => 0) (fun _ => 0) [⟨0, 0, 0, 25, 200, 0, 0, 0, 0⟩] 0).length ≤
      MAX_CELLS := by
  constructor
  · exact (cell_count_cap 0 1 0 (fun _ => 0) (fun _ => 0)
      (List.replicate 16 ⟨0, 0, 0, 5, 100, 0, 0, 0, 0⟩) 0).2.1
      (by simp [MAX_CELLS])
  · exact ((cell_count_cap 0 0 0 (fun _ => 0) (fun _ => 0)
      [⟨0, 0, 0, 25, 200, 0, 0, 0, 0⟩] 0).2.2.1 (by simp [MAX_CELLS])).1

/-! ### Food consumption (part_001 lines 516-553)

A combined list of eaters (player cells tagged `isBot = false`, then all bot
cells in bot order tagged `isBot = true`) is scanned, in order, for every
food pellet; the first eater passing the coarse box check and the exact
circle containment wins.  The pellet list is iterated backwards with
swap-with-last-and-pop removal. -/

structure FoodEater where
  cell : Cell
  isBot : Bool

def mkAllEaters (playerCells : List Cell) (bots : List Bot) : List FoodEater :=
  playerCells.map (fun c => ⟨c, false⟩) ++
    bots.flatMap (fun b => b.cells.map (fun c => ⟨c, true⟩))

/-- The effect of one pellet on its eater: `mass += 1`, radius recomputed. -/
def eatFood (e : FoodEater) : FoodEater :=
  { e with
    cell := { e.cell with
              mass := e.cell.mass + 1
              radius := massToRadius (e.cell.mass + 1) } }

/-- First matching eater in iteration order for one pellet, with its index:
skip when `|dx| > r` or `|dy| > r` (coarse check), eat when
`dx^2 + dy^2 < r^2`. -/
def findFoodEater (food : Food) : List FoodEater → Option (ℕ × FoodEater)
  | [] => none
  | e :: rest =>
    let dx := e.cell.x - food.x
    let dy := e.cell.y - food.y
    if e.cell.radius < |dx| ∨ e.cell.radius < |dy| then
      (findFoodEater food rest).map (fun p => (p.1 + 1, p.2))
    else if dx * dx + dy * dy < e.cell.radius * e.cell.radius then
      some (0, eatFood e)
    else
      (findFoodEater food rest).map (fun p => (p.1 + 1, p.2))

/-- Processing of the pellet at index `i`: if some eater matches, it is
updated in place, the pellet is removed by swap-and-pop, and the score is
incremented when the eater is a player cell. -/
def foodStep (eaters : List FoodEater) (foods : List Food) (score : ℤ) (i : ℕ) :
    List FoodEater × List Food × ℤ :=
  match foods.get? i with
  | none => (eaters, foods, score)
  | some food =>
    match findFoodEater food eaters with
    | none => (eaters, foods, score)
    | some (k, e') =>
      (eaters.set k e', swapPop foods i, score + if e'.isBot then 0 else 1)

/-- Backward loop `for (i = foods.length - 1; i >= 0; i--)`. -/
def foodLoop : List FoodEater → List Food → ℤ → ℕ → List FoodEater × List Food × ℤ
  | eaters, foods, score, 0 => foodStep eaters foods score 0
  | eaters, foods, score, i + 1 =>
    let st := foodStep eaters foods score (i + 1)
    foodLoop st.1 st.2.1 st.2.2 i

/-- The whole food-consumption pass of one tick (before replenishment). -/
def foodStage (eaters : List FoodEater) (foods : List Food) (score : ℤ) :
    List FoodEater × List Food × ℤ :=
  foodLoop eaters foods score (foods.length - 1)

def eatersMass (l : List FoodEater) : ℝ := (l.map (fun e => e.cell.mass)).sum

lemma swapPop_length {α : Type} (l : List α) (i : ℕ) (h : l ≠ []) :
    (swapPop l i).length = l.length - 1 := by
  unfold swapPop
  rw [List.getLast?_eq_getLast l h]
  simp [List.length_dropLast, List.length_set]

lemma map_sum_set {α : Type} (f : α → ℝ) :
    ∀ (l : List α) (k : ℕ) (a : α) (h : k < l.length),
      ((l.set k a).map f).sum = (l.map f).sum - f (l.get ⟨k, h⟩) + f a := by
  intro l
  induction l with
  | nil => intro k a h; simp at h
  | cons x rest ih =>
    intro k a h
    cases k with
    | zero => simp [List.set_cons_zero]; ring
    | succ k' =>
      simp only [List.set_cons_succ, List.map_cons, List.sum_cons, List.get]
      rw [ih k' a (by simpa using h)]
      ring

lemma findFoodEater_spec (food : Food) :
    ∀ (eaters : List FoodEater) (k : ℕ) (e' : FoodEater),
      findFoodEater food eaters = some (k, e') →
      ∃ h : k < eaters.length, e' = eatFood (eaters.get ⟨k, h⟩) := by
  intro eaters
  induction eaters with
  | nil => intro k e' h; exact absurd h (by simp [findFoodEater])
  | cons e rest ih =>
    intro k e' hf
    simp only [findFoodEater] at hf
    split_ifs at hf with h1 h2
    · cases hrec : findFoodEater food rest with
      | none => rw [hrec] at hf; simp at hf
      | some p =>
        obtain ⟨k0, e0⟩ := p
        rw [hrec] at hf
        simp only [Option.map_some', Option.some.injEq, Prod.mk.injEq] at hf
        obtain ⟨hk, he⟩ := hf
        subst hk; subst he
        obtain ⟨hb, hgot⟩ := ih k0 e0 hrec
        exact ⟨by simp; omega, by rw [hgot]; simp⟩
    · simp only [Option.some.injEq, Prod.mk.injEq] at hf
      obtain ⟨hk, he⟩ := hf
      subst hk; subst he
      exact ⟨by simp, by simp⟩
    · cases hrec : findFoodEater food rest with
      | none => rw [hrec] at hf; simp at hf
      | some p =>
        obtain ⟨k0, e0⟩ := p
        rw [hrec] at hf
        simp only [Option.map_some', Option.some.injEq, Prod.mk.injEq] at hf
        obtain ⟨hk, he⟩ := hf
        subst hk; subst he
        obtain ⟨hb, hgot⟩ := ih k0 e0 hrec
        exact ⟨by simp; omega, by rw [hgot]; simp⟩

lemma foodStep_spec (eaters : List FoodEater) (foods : List Food) (score : ℤ)
    (i : ℕ) :
    (foodStep eaters foods score i).2.1.length ≤ foods.length ∧
    eatersMass (foodStep eaters foods score i).1 =
      eatersMass eaters +
        ((foods.length : ℝ) - (foodStep eaters foods score i).2.1.length) ∧
    score ≤ (foodStep eaters foods score i).2.2 ∧
    (foodStep eaters foods score i).2.2 ≤
      score + ((foods.length : ℤ) - (foodStep eaters foods score i).2.1.length) ∧
    (foodStep eaters foods score i).1.length = eaters.length := by
  unfold foodStep
  cases hg : foods.get? i with
  | none => simp
  | some food =>
    cases hf : findFoodEater food eaters with
    | none => simp [hf]
    | some p =>
      obtain ⟨k, e'⟩ := p
      simp only [hf]
      have hne : foods ≠ [] := by
        intro hcon
        rw [hcon] at hg
        simp at hg
      have hlen : i < foods.length := by
        by_contra hcon
        push_neg at hcon
        rw [List.get?_eq_none.mpr hcon] at hg
        simp at hg
      have hsw := swapPop_length foods i hne
      obtain ⟨hk, he⟩ := findFoodEater_spec food eaters k e' hf
      have hms := map_sum_set (fun e => e.cell.mass) eaters k e' hk
      have hcast : (foods.length : ℝ) - ((swapPop foods i).length : ℝ) = 1 := by
        rw [hsw]
        have h1 : 1 ≤ foods.length := by omega
        push_cast [Nat.cast_sub h1]
        ring
      have hcastz : (foods.length : ℤ) - ((swapPop foods i).length : ℤ) = 1 := by
        rw [hsw]
        have h1 : 1 ≤ foods.length := by omega
        push_cast [Nat.cast_sub h1]
        ring
      refine ⟨by omega, ?_, ?_, ?_, by simp⟩
      · unfold eatersMass
        rw [hms, he, hcast]
        simp [eatFood]
        ring
      · split_ifs <;> omega
      · rw [hcastz]
        split_ifs <;> omega

lemma foodLoop_succ (eaters : List FoodEater) (foods : List Food) (score : ℤ)
    (i : ℕ) :
    foodLoop eaters foods score (i + 1) =
      foodLoop (foodStep eaters foods score (i + 1)).1
        (foodStep eaters foods score (i + 1)).2.1
        (foodStep eaters foods score (i + 1)).2.2 i := rfl

lemma foodLoop_spec :
    ∀ (i : ℕ) (eaters : List FoodEater) (foods : List Food) (score : ℤ),
      (foodLoop eaters foods score i).2.1.length ≤ foods.length ∧
      eatersMass (foodLoop eaters foods score i).1 =
        eatersMass eaters +
          ((foods.length : ℝ) - (foodLoop eaters foods score i).2.1.length) ∧
      score ≤ (foodLoop eaters foods score i).2.2 ∧
      (foodLoop eaters foods score i).2.2 ≤
        score + ((foods.length : ℤ) - (foodLoop eaters foods score i).2.1.length) ∧
      (foodLoop eaters foods score i).1.length = eaters.length := by
  intro i
  induction i with
  | zero =>
    intro eaters foods score
    exact foodStep_spec eaters foods score 0
  | succ i ih =>
    intro eaters foods score
    rw [foodLoop_succ]
    obtain ⟨h1, h2, h3, h4, h5⟩ := foodStep_spec eaters foods score (i + 1)
    obtain ⟨g1, g2, g3, g4, g5⟩ := ih (foodStep eaters foods score (i + 1)).1
      (foodStep eaters foods score (i + 1)).2.1
      (foodStep eaters foods score (i + 1)).2.2
    refine ⟨by omega, by linarith, by omega, by omega, by omega⟩

/-- Claim C7 counterexample: the bot branch of the virus check has no break:
a single virus at the origin overlapped by the cells of two distinct bots
(each of mass 200 > VIRUS_MASS * 1.1) applies its bonus-and-halve
consumption effect to BOTH cells in the same tick, each going from mass 200
to (200 + 150) / 2 = 175 — one contested entity, two eaters. -/
theorem virus_bonus_multiple_eaters_cex :
    ((botsVirusHit ⟨0, 0, 0, 70⟩
        [⟨0, [⟨0, 0, 0, 20, 200, 0, 0, 0, 0⟩], (0, 0), none⟩,
         ⟨1, [⟨1, 0, 0, 20, 200, 0, 0, 0, 0⟩], (0, 0), none⟩]).map
      (fun b => b.cells.map Cell.mass)) = [[175], [175]] ∧
    (175 : ℝ) ≠ 200 := by
  constructor
  · have hcond : ∀ cid : ℕ,
        getDistance (Cell.pos ⟨cid, 0, 0, 20, 200, 0, 0, 0, 0⟩) ((0 : ℝ), (0 : ℝ)) <
          (20 : ℝ) ∧ VIRUS_MASS * 1.1 < (200 : ℝ) := by
      intro cid
      constructor
      · simp [getDistance, Cell.pos]
      · norm_num [VIRUS_MASS]
    simp only [botsVirusHit, botVirusCell, List.map_cons, List.map_nil]
    rw [if_pos (hcond 0), if_pos (hcond 1)]
    norm_num [VIRUS_BONUS_MASS]
  · norm_num

/-! ### Cross-actor consumption (part_001 lines 567-603)

Backward loops over bots `i`, the bot's cells `j`, player cells `k`.
If the player cell covers the bot cell's center and outweighs it by the
1.25 ratio, the player eats it (score increases by `⌊bot cell mass⌋`, bot
cell removed by `splice`, break to the next bot cell); symmetrically the
bot can eat the player cell (no score, no break). -/

/-- One `k`-iteration of the inner loop; the final `Bool` is the `break`
flag (the bot cell died). -/
def crossKStep (j : ℕ) (botCells pcells : List Cell) (score : ℤ) (k : ℕ) :
    List Cell × List Cell × ℤ × Bool :=
  match botCells.get? j, pcells.get? k with
  | some bCell, some pCell =>
    let dist := getDistance pCell.pos bCell.pos
    if dist < pCell.radius ∧ bCell.mass * 1.25 < pCell.mass then
      (botCells.eraseIdx j,
       pcells.set k
         { pCell with
           mass := pCell.mass + bCell.mass
           radius := massToRadius (pCell.mass + bCell.mass) },
       score + ⌊bCell.mass⌋, true)
    else if dist < bCell.radius ∧ pCell.mass * 1.25 < bCell.mass then
      (botCells.set j
         { bCell with
           mass := bCell.mass + pCell.mass
           radius := massToRadius (bCell.mass + pCell.mass) },
       pcells.eraseIdx k, score, false)
    else (botCells, pcells, score, false)
  | _, _ => (botCells, pcells, score, false)

/-- Inner loop over player cells, `k` counting down. -/
def crossK (j : ℕ) : List Cell → List Cell → ℤ → ℕ → List Cell × List Cell × ℤ
  | botCells, pcells, score, k =>
    let st := crossKStep j botCells pcells score k
    if st.2.2.2 then (st.1, st.2.1, st.2.2.1)
    else
      match k with
      | 0 => (st.1, st.2.1, st.2.2.1)
      | k' + 1 => crossK j st.1 st.2.1 st.2.2.1 k'

/-- Middle loop over one bot's cells, `j` counting down. -/
def crossJ : List Cell → List Cell → ℤ → ℕ → List Cell × List Cell × ℤ
  | botCells, pcells, score, j =>
    let st := crossK j botCells pcells score (pcells.length - 1)
    match j with
    | 0 => st
    | j' + 1 => crossJ st.1 st.2.1 st.2.2 j'

/-- One `i`-iteration of the outer loop: bot `i`'s cells go through the
whole middle loop (its updated cells written back), mutating the player
cells and score. -/
def crossIStep (bots : List Bot) (pcells : List Cell) (score : ℤ) (i : ℕ) :
    List Bot × List Cell × ℤ :=
  match bots.get? i with
  | none => (bots, pcells, score)
  | some bot =>
    let r := crossJ bot.cells pcells score (bot.cells.length - 1)
    (bots.set i { bot with cells := r.1 }, r.2.1, r.2.2)

/-- Outer loop over bots, `i` counting down. -/
def crossI : List Bot → List Cell → ℤ → ℕ → List Bot × List Cell × ℤ
  | bots, pcells, score, 0 => crossIStep bots pcells score 0
  | bots, pcells, score, i + 1 =>
    let st := crossIStep bots pcells score (i + 1)
    crossI st.1 st.2.1 st.2.2 i

/-- The whole player-vs-bot consumption pass. -/
def crossActor (bots : List Bot) (pcells : List Cell) (score : ℤ) :
    List Bot × List Cell × ℤ :=
  crossI bots pcells score (bots.length - 1)

/-- Every cell of the list has nonnegative mass. -/
def NonnegMasses (cells : List Cell) : Prop := ∀ c ∈ cells, 0 ≤ c.mass

def NonnegBots (bots : List Bot) : Prop := ∀ b ∈ bots, NonnegMasses b.cells

lemma nonneg_set {l : List Cell} {k : ℕ} {a : Cell} (hl : NonnegMasses l)
    (ha : 0 ≤ a.mass) : NonnegMasses (l.set k a) := by
  intro c hc
  rcases List.mem_or_eq_of_mem_set hc with h | h
  · exact hl c h
  · rw [h]; exact ha

lemma nonneg_eraseIdx {l : List Cell} {k : ℕ} (hl : NonnegMasses l) :
    NonnegMasses (l.eraseIdx k) := by
  intro c hc
  exact hl c ((List.eraseIdx_sublist l k).mem hc)

lemma crossKStep_spec (j : ℕ) (botCells pcells : List Cell) (score : ℤ) (k : ℕ)
    (hb : NonnegMasses botCells) (hp : NonnegMasses pcells) :
    score ≤ (crossKStep j botCells pcells score k).2.2.1 ∧
    NonnegMasses (crossKStep j botCells pcells score k).1 ∧
    NonnegMasses (crossKStep j botCells pcells score k).2.1 := by
  unfold crossKStep
  cases hgb : botCells.get? j with
  | none => simp [hgb]; exact ⟨hb, hp⟩
  | some bCell =>
    cases hgp : pcells.get? k with
    | none => simp [hgb, hgp]; exact ⟨hb, hp⟩
    | some pCell =>
      have hmb : bCell ∈ botCells := List.get?_mem hgb
      have hmp : pCell ∈ pcells := List.get?_mem hgp
      simp only [hgb, hgp]
      split_ifs with h1 h2
      · refine ⟨?_, nonneg_eraseIdx hb, nonneg_set hp ?_⟩
        · have : (0 : ℤ) ≤ ⌊bCell.mass⌋ := Int.floor_nonneg.mpr (hb bCell hmb)
          show score ≤ score + ⌊bCell.mass⌋
          omega
        · have := hp pCell hmp
          have := hb bCell hmb
          simp only
          linarith
      · refine ⟨le_refl _, nonneg_set hb ?_, nonneg_eraseIdx hp⟩
        have := hp pCell hmp
        have := hb bCell hmb
        simp only
        linarith
      · exact ⟨le_refl _, hb, hp⟩

lemma crossK_spec (j : ℕ) :
    ∀ (k : ℕ) (botCells pcells : List Cell) (score : ℤ),
      NonnegMasses botCells → NonnegMasses pcells →
      score ≤ (crossK j botCells pcells score k).2.2 ∧
      NonnegMasses (crossK j botCells pcells score k).1 ∧
      NonnegMasses (crossK j botCells pcells score k).2.1 := by
  intro k
  induction k with
  | zero =>
    intro botCells pcells score hb hp
    have h := crossKStep_spec j botCells pcells score 0 hb hp
    rw [crossK]
    split_ifs <;> exact h
  | succ k ih =>
    intro botCells pcells score hb hp
    have h := crossKStep_spec j botCells pcells score (k + 1) hb hp
    rw [crossK]
    split_ifs with hbr
    · exact h
    · have := ih (crossKStep j botCells pcells score (k + 1)).1
        (crossKStep j botCells pcells score (k + 1)).2.1
        (crossKStep j botCells pcells score (k + 1)).2.2.1 h.2.1 h.2.2
      exact ⟨le_trans h.1 this.1, this.2.1, this.2.2⟩

lemma crossJ_spec :
    ∀ (j : ℕ) (botCells pcells : List Cell) (score : ℤ),
      NonnegMasses botCells → NonnegMasses pcells →
      score ≤ (crossJ botCells pcells score j).2.2 ∧
      NonnegMasses (crossJ botCells pcells score j).1 ∧
      NonnegMasses (crossJ botCells pcells score j).2.1 := by
  intro j
  induction j with
  | zero =>
    intro botCells pcells score hb hp
    have h := crossK_spec 0 (pcells.length - 1) botCells pcells score hb hp
    rw [crossJ]
    exact h
  | succ j ih =>
    intro botCells pcells score hb hp
    have h := crossK_spec (j + 1) (pcells.length - 1) botCells pcells score hb hp
    rw [crossJ]
    have := ih (crossK (j + 1) botCells pcells score (pcells.length - 1)).1
      (crossK (j + 1) botCells pcells score (pcells.length - 1)).2.1
      (crossK (j + 1) botCells pcells score (pcells.length - 1)).2.2 h.2.1 h.2.2
    exact ⟨le_trans h.1 this.1, this.2.1, this.2.2⟩

lemma nonnegBots_set {bots : List Bot} {i : ℕ} {b : Bot} (hb : NonnegBots bots)
    (hbb : NonnegMasses b.cells) : NonnegBots (bots.set i b) := by
  intro x hx
  rcases List.mem_or_eq_of_mem_set hx with h | h
  · exact hb x h
  · rw [h]; exact hbb

lemma crossIStep_spec (bots : List Bot) (pcells : List Cell) (score : ℤ)
    (i : ℕ) (hb : NonnegBots bots) (hp : NonnegMasses pcells) :
    score ≤ (crossIStep bots pcells score i).2.2 ∧
    NonnegBots (crossIStep bots pcells score i).1 ∧
    NonnegMasses (crossIStep bots pcells score i).2.1 := by
  unfold crossIStep
  cases hg : bots.get? i with
  | none => exact ⟨le_refl _, hb, hp⟩
  | some bot =>
    have hmem : bot ∈ bots := List.get?_mem hg
    have h := crossJ_spec (bot.cells.length - 1) bot.cells pcells score
      (hb bot hmem) hp
    exact ⟨h.1, nonnegBots_set hb h.2.1, h.2.2⟩

lemma crossI_spec :
    ∀ (i : ℕ) (bots : List Bot) (pcells : List Cell) (score : ℤ),
      NonnegBots bots → NonnegMasses pcells →
      score ≤ (crossI bots pcells score i).2.2 ∧
      NonnegBots (crossI bots pcells score i).1 ∧
      NonnegMasses (crossI bots pcells score i).2.1 := by
  intro i
  induction i with
  | zero =>
    intro bots pcells score hb hp
    exact crossIStep_spec bots pcells score 0 hb hp
  | succ i ih =>
    intro bots pcells score hb hp
    have h := crossIStep_spec bots pcells score (i + 1) hb hp
    have hrec := ih (crossIStep bots pcells score (i + 1)).1
      (crossIStep bots pcells score (i + 1)).2.1
      (crossIStep bots pcells score (i + 1)).2.2 h.2.1 h.2.2
    exact ⟨le_trans h.1 hrec.1, hrec.2.1, hrec.2.2⟩

/-! ### Player spawn (part_001 lines 91-111) -/

/-- `spawnPlayer`: the player's cell collection is reset to a single fresh
cell of `INITIAL_MASS` at a random position; camera recentered, scale
reset.  The score field is untouched. -/
def spawnPlayerState (s : GameState) (pos : ℝ × ℝ) (newId : ℕ) (now : ℝ) :
    GameState :=
  { s with
    playerCells := [{ id := newId, x := pos.1, y := pos.2,
                      radius := massToRadius INITIAL_MASS, mass := INITIAL_MASS,
                      vx := 0, vy := 0, mergeTimer := 0, createdAt := now }],
    camera := pos, scale := 1 }

/-- Claim C10: the player's score is non-decreasing within a match: the
food pass only adds (+1 per pellet eaten by a player cell), the
cross-actor pass only adds (`⌊consumed bot-cell mass⌋ ≥ 0` per bot cell
eaten, given nonnegative masses), and the player respawn leaves the score
unchanged. -/
theorem score_non_decreasing (eaters : List FoodEater) (foods : List Food)
    (bots : List Bot) (pcells : List Cell) (score : ℤ) (s : GameState)
    (pos : ℝ × ℝ) (newId : ℕ) (now : ℝ) :
    score ≤ (foodStage eaters foods score).2.2 ∧
    (NonnegBots bots → NonnegMasses pcells →
      score ≤ (crossActor bots pcells score).2.2) ∧
    (spawnPlayerState s pos newId now).score = s.score := by
  refine ⟨(foodLoop_spec (foods.length - 1) eaters foods score).2.2.1, ?_, rfl⟩
  intro hb hp
  exact (crossI_spec (bots.length - 1) bots pcells score hb hp).1

/-- Witness for C10: with one bot of one cell (mass 40) overlapping a
heavier player cell (mass 100), the cross-actor pass cannot decrease the
score. -/
theorem score_non_decreasing_witness :
    (7 : ℤ) ≤ (crossActor [⟨0, [⟨0, 0, 0, 11, 40, 0, 0, 0, 0⟩], (0, 0), none⟩]
      [⟨1, 0, 0, 20, 100, 0, 0, 0, 0⟩] 7).2.2 := by
  have h := (score_non_decreasing [] []
    [⟨0, [⟨0, 0, 0, 11, 40, 0, 0, 0, 0⟩], (0, 0), none⟩]
    [⟨1, 0, 0, 20, 100, 0, 0, 0, 0⟩] 7
    ⟨[], [], [], [], [], (0, 0), 1, 0, false, false, 0⟩ (0, 0) 0 0).2.1
  apply h
  · intro b hb
    simp at hb
    rw [hb]
    intro c hc
    simp at hc
    rw [hc]
    norm_num
  · intro c hc
    simp at hc
    rw [hc]
    norm_num

/-! ### Ejected-mass consumption and cap (part_001 lines 673-733)

Backward loop over the blobs: physics first (reflection then integration),
then the first matching player cell (owner-grace window of 500 ms applies)
or, failing that, the first matching bot cell consumes the blob; a consumed
blob is removed by swap-and-pop.  After the loop, a global cap of 300
removes the FIRST `length - 300` array entries (`splice(0, length - 300)`). -/

/-- First player cell that consumes the blob, with the updated cell: the
cell must cover the blob's center, must not be the blob's owner within the
500 ms grace window, and must outweigh the blob by the 1.25 ratio.  A cell
failing only the mass ratio does not stop the scan. -/
def findBlobPlayerEater (now : ℝ) (b : Blob) : List Cell → Option (ℕ × Cell)
  | [] => none
  | c :: rest =>
    if getDistance c.pos b.pos < c.radius ∧
        ¬ (b.ownerId = c.id ∧ now - b.createdAt < 500) ∧
        b.mass * 1.25 < c.mass then
      some (0, { c with
        mass := c.mass + b.mass
        radius := massToRadius (c.mass + b.mass) })
    else
      (findBlobPlayerEater now b rest).map (fun p => (p.1 + 1, p.2))

/-- First cell of one bot that consumes the blob (no grace window). -/
def findBlobBotCellEater (b : Blob) : List Cell → Option (ℕ × Cell)
  | [] => none
  | c :: rest =>
    if getDistance c.pos b.pos < c.radius ∧ b.mass * 1.25 < c.mass then
      some (0, { c with
        mass := c.mass + b.mass
        radius := massToRadius (c.mass + b.mass) })
    else
      (findBlobBotCellEater b rest).map (fun p => (p.1 + 1, p.2))

/-- First bot (and cell within it) that consumes the blob. -/
def findBlobBotEater (b : Blob) : List Bot → Option (ℕ × ℕ × Cell)
  | [] => none
  | bot :: rest =>
    match findBlobBotCellEater b bot.cells with
    | some p => some (0, p.1, p.2)
    | none => (findBlobBotEater b rest).map (fun p => (p.1 + 1, p.2))

def setBotCell (bots : List Bot) (bi j : ℕ) (c : Cell) : List Bot :=
  match bots.get? bi with
  | some bot => bots.set bi { bot with cells := bot.cells.set j c }
  | none => bots

/-- Processing of the blob at index `i`: physics (always), then at most one
consumption, then swap-and-pop removal if consumed. -/
def blobStep (now : ℝ) (pcells : List Cell) (bots : List Bot)
    (blobs : List Blob) (i : ℕ) : List Cell × List Bot × List Blob :=
  match blobs.get? i with
  | none => (pcells, bots, blobs)
  | some b0 =>
    let b := blobPhysics b0
    let blobs1 := blobs.set i b
    match findBlobPlayerEater now b pcells with
    | some p => (pcells.set p.1 p.2, bots, swapPop blobs1 i)
    | none =>
      match findBlobBotEater b bots with
      | some q => (pcells, setBotCell bots q.1 q.2.1 q.2.2, swapPop blobs1 i)
      | none => (pcells, bots, blobs1)

/-- Backward loop `for (i = ejectedMass.length - 1; i >= 0; i--)`. -/
def blobLoop (now : ℝ) :
    List Cell → List Bot → List Blob → ℕ → List Cell × List Bot × List Blob
  | pcells, bots, blobs, 0 => blobStep now pcells bots blobs 0
  | pcells, bots, blobs, i + 1 =>
    let st := blobStep now pcells bots blobs (i + 1)
    blobLoop now st.1 st.2.1 st.2.2 i

/-- The whole ejected-mass pass of one tick (before the population cap). -/
def blobStage (now : ℝ) (pcells : List Cell) (bots : List Bot)
    (blobs : List Blob) : List Cell × List Bot × List Blob :=
  blobLoop now pcells bots blobs (blobs.length - 1)

/-- The ejected-mass population cap (lines 730-733):
`splice(0, length - 300)` drops the first entries in array order. -/
def trimEjected (l : List Blob) : List Blob :=
  if 300 < l.length then l.drop (l.length - 300) else l

/-- Claim C9 (amended): the cap keeps the last `min (length, 300)` blobs in
array order; provided the array is ordered by creation time (oldest first),
every evicted blob is at most as recent as every survivor — i.e. eviction
is FIFO only up to array order. -/
theorem ejected_cap_evicts_front (l : List Blob)
    (hsorted : (l.map Blob.createdAt).Sorted (· ≤ ·)) :
    (trimEjected l).length = min l.length 300 ∧
    trimEjected l = l.drop (l.length - 300) ∧
    (∀ b1 ∈ l.take (l.length - 300), ∀ b2 ∈ trimEjected l,
      b1.createdAt ≤ b2.createdAt) := by
  have hdrop : trimEjected l = l.drop (l.length - 300) := by
    unfold trimEjected
    split_ifs with h
    · rfl
    · have : l.length - 300 = 0 := by omega
      rw [this, List.drop_zero]
  refine ⟨?_, hdrop, ?_⟩
  · rw [hdrop, List.length_drop]
    omega
  · intro b1 h1 b2 h2
    rw [hdrop] at h2
    have hsplit : l.map Blob.createdAt =
        (l.take (l.length - 300)).map Blob.createdAt ++
          (l.drop (l.length - 300)).map Blob.createdAt := by
      rw [← List.map_append, List.take_append_drop]
    have hpw := List.pairwise_append.mp (by rw [← hsplit]; exact hsorted)
    exact hpw.2.2 _ (List.mem_map_of_mem _ h1) _ (List.mem_map_of_mem _ h2)

/-- Witness for C9: a singleton blob list is trivially sorted by creation
time and survives the cap untouched. -/
theorem ejected_cap_evicts_front_witness :
    (trimEjected [⟨0, 0, 0, 1, 0, 0, 12, 0, 3⟩]).length = min 1 300 := by
  have h := (ejected_cap_evicts_front [⟨0, 0, 0, 1, 0, 0, 12, 0, 3⟩]
    (by simp)).1
  simpa using h

/-- A concrete blob whose creation timestamp is `t`. -/
def mkBlob (t : ℕ) : Blob := ⟨0, 0, 0, 1, 0, 0, 12, 0, (t : ℝ)⟩

lemma mkBlob_inj {a b : ℕ} (h : mkBlob a = mkBlob b) : a = b := by
  have := congrArg Blob.createdAt h
  simp only [mkBlob] at this
  exact_mod_cast this

/-- Claim C9 counterexample: blob removal during the consumption loop uses
swap-with-last-and-pop, which moves the NEWEST blob to the front of the
array.  Starting from 302 blobs in creation order (timestamps 0, 1, ...,
300, 1000), removing the consumed blob at index 0 puts the newest blob
(createdAt 1000) at index 0; the cap then evicts exactly that newest blob
while the much older blob with createdAt 1 survives — the evicted excess is
NOT the set of oldest blobs. -/
theorem ejected_cap_evicts_front_cex :
    swapPop (mkBlob 0 :: ((List.range 300).map (fun k => mkBlob (k + 1)) ++
        [mkBlob 1000])) 0 =
      mkBlob 1000 :: (List.range 300).map (fun k => mkBlob (k + 1)) ∧
    trimEjected (swapPop (mkBlob 0 :: ((List.range 300).map
        (fun k => mkBlob (k + 1)) ++ [mkBlob 1000])) 0) =
      (List.range 300).map (fun k => mkBlob (k + 1)) ∧
    mkBlob 1000 ∉ (List.range 300).map (fun k => mkBlob (k + 1)) ∧
    mkBlob 1 ∈ (List.range 300).map (fun k => mkBlob (k + 1)) ∧
    (mkBlob 1).createdAt < (mkBlob 1000).createdAt := by
  have hswap : swapPop (mkBlob 0 :: ((List.range 300).map
      (fun k => mkBlob (k + 1)) ++ [mkBlob 1000])) 0 =
      mkBlob 1000 :: (List.range 300).map (fun k => mkBlob (k + 1)) := by
    unfold swapPop
    rw [show mkBlob 0 :: ((List.range 300).map (fun k => mkBlob (k + 1)) ++
        [mkBlob 1000]) =
        (mkBlob 0 :: (List.range 300).map (fun k => mkBlob (k + 1))) ++
          [mkBlob 1000] from rfl]
    rw [List.getLast?_concat]
    simp only [List.cons_append, List.set_cons_zero]
    rw [show mkBlob 1000 :: ((List.range 300).map (fun k => mkBlob (k + 1)) ++
        [mkBlob 1000]) =
        (mkBlob 1000 :: (List.range 300).map (fun k => mkBlob (k + 1))) ++
          [mkBlob 1000] from rfl]
    rw [List.dropLast_concat]
  refine ⟨hswap, ?_, ?_, ?_, ?_⟩
  · rw [hswap]
    unfold trimEjected
    rw [if_pos (by simp)]
    simp
  · intro hmem
    obtain ⟨k, hk, heq⟩ := List.mem_map.mp hmem
    have := mkBlob_inj heq
    simp at hk
    omega
  · exact List.mem_map.mpr ⟨0, by simp, rfl⟩
  · simp [mkBlob]

/-! ### Match clock and outcome (part_001 lines 188-200)

`update` returns immediately when the game has not started or is already
over; when `now` reaches `gameEndTime` it sets `gameOver`, emits the
current score to the outcome callback and returns without simulating.  The
rest of the tick body (everything below line 200) never touches the
`gameOver`, `gameStarted` or `gameEndTime` flags; it is abstracted here as
a `body` function. -/

def tick (body : GameState → ℝ → GameState) (s : GameState) (now : ℝ) :
    GameState × Option ℤ :=
  if ¬ s.gameStarted ∨ s.gameOver then (s, none)
  else if s.gameEndTime ≤ now then ({ s with gameOver := true }, some s.score)
  else (body s now, none)

/-- Running a sequence of ticks, collecting the scores emitted to the
outcome callback. -/
def runTicks (body : GameState → ℝ → GameState) :
    GameState → List ℝ → GameState × List ℤ
  | s, [] => (s, [])
  | s, t :: ts =>
    let r := tick body s t
    let rest := runTicks body r.1 ts
    (rest.1, match r.2 with | some v => v :: rest.2 | none => rest.2)

lemma tick_over (body : GameState → ℝ → GameState) (s : GameState) (now : ℝ)
    (h : s.gameOver = true) : tick body s now = (s, none) := by
  unfold tick
  rw [if_pos (Or.inr h)]

lemma runTicks_over (body : GameState → ℝ → GameState) :
    ∀ (ts : List ℝ) (s : GameState), s.gameOver = true →
      runTicks body s ts = (s, []) := by
  intro ts
  induction ts with
  | nil => intro s _; rfl
  | cons t ts ih =>
    intro s h
    unfold runTicks
    rw [tick_over body s t h]
    simp [ih s h]

/-- Claim C8: when `now` reaches `gameEndTime` on a running match, the tick
transitions to the terminal ended state, emitting exactly the score at that
moment and leaving every entity collection untouched; an ended match never
simulates again and never emits again (over a whole subsequent tick
sequence the emission list is exactly `[score at transition]`); and —
provided the simulation body never touches the `gameOver` flag, as the code
below the clock check does not — the only way `gameOver` becomes true is
the clock reaching `gameEndTime`. -/
theorem game_over_transition (body : GameState → ℝ → GameState)
    (s : GameState) (now : ℝ) (ts : List ℝ) :
    (s.gameStarted = true → s.gameOver = false → s.gameEndTime ≤ now →
      tick body s now = ({ s with gameOver := true }, some s.score)) ∧
    (s.gameOver = true → tick body s now = (s, none)) ∧
    (s.gameOver = true → runTicks body s ts = (s, [])) ∧
    ((∀ s' t, (body s' t).gameOver = s'.gameOver) →
      (tick body s now).1.gameOver = true →
      s.gameOver = true ∨ s.gameEndTime ≤ now) ∧
    (s.gameStarted = true → s.gameOver = false → s.gameEndTime ≤ now →
      (runTicks body s (now :: ts)).2 = [s.score]) := by
  have htrans : s.gameStarted = true → s.gameOver = false →
      s.gameEndTime ≤ now →
      tick body s now = ({ s with gameOver := true }, some s.score) := by
    intro h1 h2 h3
    unfold tick
    rw [if_neg (by simp [h1, h2]), if_pos h3]
  refine ⟨htrans, tick_over body s now, runTicks_over body ts s, ?_, ?_⟩
  · intro hbody hov
    unfold tick at hov
    split_ifs at hov with hA hB
    · exact Or.inl hov
    · exact Or.inr hB
    · rw [hbody s now] at hov
      exact Or.inl hov
  · intro h1 h2 h3
    unfold runTicks
    rw [htrans h1 h2 h3]
    simp [runTicks_over body ts { s with gameOver := true } rfl]

/-- Witness for C8: a running match with score 7 and end time 100 ticked at
times 100, 200, 300 emits exactly [7]. -/
theorem game_over_transition_witness :
    (runTicks (fun s _ => s)
      ⟨[], [], [], [], [], (0, 0), 1, 7, false, true, 100⟩ [100, 200, 300]).2 =
      [7] := by
  have h := (game_over_transition (fun s _ => s)
    ⟨[], [], [], [], [], (0, 0), 1, 7, false, true, 100⟩ 100 [200, 300]).2.2.2.2
  exact h rfl rfl (by norm_num)

/-! ### Radius-mass consistency (claim C5)

`radius` is a derived field: every mutation of `mass` in the source
immediately recomputes `radius = massToRadius(mass)`.  `Consistent` states
the invariant for one cell; the lemmas below show each operation of the
tick preserves it. -/

def Consistent (c : Cell) : Prop := c.radius = massToRadius c.mass

def AllConsistent (cells : List Cell) : Prop := ∀ c ∈ cells, Consistent c

def BotsConsistent (bots : List Bot) : Prop := ∀ b ∈ bots, AllConsistent b.cells

def EatersConsistent (l : List FoodEater) : Prop := ∀ e ∈ l, Consistent e.cell

lemma allConsistent_nil : AllConsistent [] := by
  intro c hc
  simp at hc

lemma allConsistent_set {l : List Cell} {k : ℕ} {a : Cell}
    (hl : AllConsistent l) (ha : Consistent a) : AllConsistent (l.set k a) := by
  intro c hc
  rcases List.mem_or_eq_of_mem_set hc with h | h
  · exact hl c h
  · rw [h]; exact ha

lemma allConsistent_eraseIdx {l : List Cell} {k : ℕ} (hl : AllConsistent l) :
    AllConsistent (l.eraseIdx k) :=
  fun c hc => hl c ((List.eraseIdx_sublist l k).mem hc)

lemma splitLoop_consistent (now dirX dirY : ℝ) (ids : ℕ → ℕ) :
    ∀ (cells : List Cell) (count n : ℕ), AllConsistent cells →
      AllConsistent (splitLoop now dirX dirY ids cells count n).1 ∧
      AllConsistent (splitLoop now dirX dirY ids cells count n).2 := by
  intro cells
  induction cells with
  | nil =>
    intro count n _
    constructor <;> intro c hc <;> simp [splitLoop] at hc
  | cons cell rest ih =>
    intro count n h
    have hrest : AllConsistent rest := fun c hc => h c (List.mem_cons_of_mem _ hc)
    by_cases hc : MIN_MASS_TO_SPLIT ≤ cell.mass ∧ count < MAX_CELLS
    · have ihh := ih (count + 1) (n + 1) hrest
      constructor <;> intro c hmem
      · simp only [splitLoop, if_pos hc, List.mem_cons] at hmem
        rcases hmem with h1 | h1
        · subst h1; rfl
        · exact ihh.1 c h1
      · simp only [splitLoop, if_pos hc, List.mem_cons] at hmem
        rcases hmem with h1 | h1
        · subst h1; rfl
        · exact ihh.2 c h1
    · have ihh := ih count n hrest
      constructor <;> intro c hmem
      · simp only [splitLoop, if_neg hc, List.mem_cons] at hmem
        rcases hmem with h1 | h1
        · rw [h1]; exact h cell (List.mem_cons_self _ _)
        · exact ihh.1 c h1
      · simp only [splitLoop, if_neg hc] at hmem
        exact ihh.2 c hmem

lemma splitCells_consistent (now dirX dirY : ℝ) (ids : ℕ → ℕ)
    (cells : List Cell) (h : AllConsistent cells) :
    AllConsistent (splitCells now dirX dirY ids cells) := by
  intro c hc
  unfold splitCells at hc
  rcases List.mem_append.mp hc with h1 | h1
  · exact (splitLoop_consistent now dirX dirY ids cells cells.length 0 h).1 c h1
  · exact (splitLoop_consistent now dirX dirY ids cells cells.length 0 h).2 c h1

lemma ejectLoop_consistent (now dirX dirY : ℝ) (blobIds : ℕ → ℕ) :
    ∀ (cells : List Cell) (n : ℕ), AllConsistent cells →
      AllConsistent (ejectLoop now dirX dirY blobIds cells n).1 ∧
      ∀ b ∈ (ejectLoop now dirX dirY blobIds cells n).2,
        b.radius = massToRadius b.mass := by
  intro cells
  induction cells with
  | nil =>
    intro n _
    constructor <;> intro c hc <;> simp [ejectLoop] at hc
  | cons cell rest ih =>
    intro n h
    have hrest : AllConsistent rest := fun c hc => h c (List.mem_cons_of_mem _ hc)
    by_cases hc : MIN_MASS_TO_EJECT ≤ cell.mass
    · have ihh := ih (n + 1) hrest
      constructor <;> intro c hmem
      · simp only [ejectLoop, if_pos hc, List.mem_cons] at hmem
        rcases hmem with h1 | h1
        · subst h1; rfl
        · exact ihh.1 c h1
      · simp only [ejectLoop, if_pos hc, List.mem_cons] at hmem
        rcases hmem with h1 | h1
        · subst h1; rfl
        · exact ihh.2 c h1
    · have ihh := ih n hrest
      constructor <;> intro c hmem
      · simp only [ejectLoop, if_neg hc, List.mem_cons] at hmem
        rcases hmem with h1 | h1
        · rw [h1]; exact h cell (List.mem_cons_self _ _)
        · exact ihh.1 c h1
      · simp only [ejectLoop, if_neg hc] at hmem
        exact ihh.2 c hmem

lemma integrateCell_consistent (moveX moveY : ℝ) (hasInput : Bool)
    (cellCount : ℕ) (comX comY : ℝ) (cell : Cell) (h : Consistent cell) :
    Consistent (integrateCell moveX moveY hasInput cellCount comX comY cell) := by
  by_cases hd : MASS_DECAY_THRESHOLD < cell.mass
  · simp [integrateCell, Consistent, hd, apply_ite Cell.radius, apply_ite Cell.mass]
  · simpa [integrateCell, Consistent, hd, apply_ite Cell.radius,
      apply_ite Cell.mass] using h

lemma integrateBotCell_consistent (tx ty : ℝ) (cell : Cell)
    (h : Consistent cell) : Consistent (integrateBotCell tx ty cell) := by
  by_cases hd : MASS_DECAY_THRESHOLD < cell.mass
  · simp [integrateBotCell, Consistent, hd]
  · simpa [integrateBotCell, Consistent, hd] using h

lemma collidePair_merged_consistent (now : ℝ) {c1 c2 c' : Cell}
    (h : collidePair now c1 c2 = PairOutcome.merged c') : Consistent c' := by
  by_cases hov : getDistance c1.pos c2.pos < c1.radius + c2.radius
  · by_cases hm : c1.mergeTimer < now ∧ c2.mergeTimer < now
    · simp only [collidePair, if_pos hov, if_pos hm,
        PairOutcome.merged.injEq] at h
      rw [← h]
      rfl
    · simp only [collidePair, if_pos hov, if_neg hm] at h
      exact absurd h (by simp)
  · simp only [collidePair, if_neg hov] at h
    exact absurd h (by simp)

lemma collidePair_pushed_consistent (now : ℝ) {c1 c2 a b : Cell}
    (h : collidePair now c1 c2 = PairOutcome.pushed a b) :
    (Consistent c1 → Consistent a) ∧ (Consistent c2 → Consistent b) := by
  by_cases hov : getDistance c1.pos c2.pos < c1.radius + c2.radius
  · by_cases hm : c1.mergeTimer < now ∧ c2.mergeTimer < now
    · simp only [collidePair, if_pos hov, if_pos hm] at h
      exact absurd h (by simp)
    · simp only [collidePair, if_pos hov, if_neg hm,
        PairOutcome.pushed.injEq] at h
      obtain ⟨ha, hb⟩ := h
      rw [← ha, ← hb]
      exact ⟨fun hh => hh, fun hh => hh⟩
  · simp only [collidePair, if_neg hov] at h
    exact absurd h (by simp)

lemma selfInner_consistent (now : ℝ) (i : ℕ) :
    ∀ (n : ℕ) (cells : List Cell) (j : ℕ), cells.length - j ≤ n →
      AllConsistent cells → AllConsistent (selfInner now i cells j) := by
  intro n
  induction n with
  | zero =>
    intro cells j h hcells
    rw [selfInner]
    have hj : ¬ j < cells.length := by omega
    simpa [hj] using hcells
  | succ n ih =>
    intro cells j h hcells
    rw [selfInner]
    by_cases hj : j < cells.length
    · by_cases hi : i < cells.length
      · simp only [dif_pos hj, dif_pos hi]
        cases hcp : collidePair now (cells.get ⟨i, hi⟩) (cells.get ⟨j, hj⟩) with
        | noOverlap =>
          exact ih cells (j + 1) (by omega) hcells
        | merged c1' =>
          have he := List.length_eraseIdx_add_one (l := cells.set i c1') (i := j)
            (by simpa using hj)
          simp only [List.length_set] at he
          have hcons : AllConsistent ((cells.set i c1').eraseIdx j) :=
            allConsistent_eraseIdx
              (allConsistent_set hcells (collidePair_merged_consistent now hcp))
          exact ih ((cells.set i c1').eraseIdx j) j (by omega) hcons
        | pushed c1' c2' =>
          have hp := collidePair_pushed_consistent now hcp
          have hcons : AllConsistent ((cells.set i c1').set j c2') :=
            allConsistent_set
              (allConsistent_set hcells (hp.1 (hcells _ (cells.get_mem i hi))))
              (hp.2 (hcells _ (cells.get_mem j hj)))
          exact ih ((cells.set i c1').set j c2') (j + 1)
            (by simp only [List.length_set]; omega) hcons
      · simpa [dif_pos hj, dif_neg hi] using hcells
    · simpa [dif_neg hj] using hcells

lemma selfOuter_consistent (now : ℝ) :
    ∀ (n : ℕ) (cells : List Cell) (i : ℕ), cells.length - i ≤ n →
      AllConsistent cells → AllConsistent (selfOuter now cells i) := by
  intro n
  induction n with
  | zero =>
    intro cells i h hcells
    rw [selfOuter]
    have hi : ¬ i < cells.length := by omega
    simpa [hi] using hcells
  | succ n ih =>
    intro cells i h hcells
    rw [selfOuter]
    by_cases hi : i < cells.length
    · simp only [dif_pos hi]
      have hlen := selfInner_length_le now i (cells.length - (i + 1)) cells
        (i + 1) le_rfl
      have hcons := selfInner_consistent now i (cells.length - (i + 1)) cells
        (i + 1) le_rfl hcells
      exact ih (selfInner now i cells (i + 1)) (i + 1) (by omega) hcons
    · simpa [dif_neg hi] using hcells

lemma selfCollide_consistent (now : ℝ) (cells : List Cell)
    (h : AllConsistent cells) : AllConsistent (selfCollide now cells) :=
  selfOuter_consistent now cells.length cells 0 (by omega) h

lemma explodeCell_consistent (now : ℝ) (ids : ℕ → ℕ) (angles : ℕ → ℝ)
    (cells : List Cell) (j : ℕ) (h : AllConsistent cells) :
    AllConsistent (explodeCell now ids angles cells j) := by
  unfold explodeCell
  cases hg : cells.get? j with
  | none => exact h
  | some cell =>
    simp only
    split_ifs with hp
    · intro c hmem
      rcases List.mem_append.mp hmem with h1 | h1
      · exact allConsistent_set h (by rfl) c h1
      · obtain ⟨k, _, hk⟩ := List.mem_map.mp h1
        rw [← hk]
        rfl
    · exact allConsistent_set h (by rfl)

lemma botsVirusHit_consistent (virus : Virus) (bots : List Bot)
    (h : BotsConsistent bots) : BotsConsistent (botsVirusHit virus bots) := by
  intro b hb
  obtain ⟨b0, hb0, hmap⟩ := List.mem_map.mp hb
  rw [← hmap]
  intro c hc
  obtain ⟨c0, hc0, hcm⟩ := List.mem_map.mp hc
  rw [← hcm]
  unfold botVirusCell
  split_ifs
  · rfl
  · exact h b0 hb0 c0 hc0

lemma eatersConsistent_set {l : List FoodEater} {k : ℕ} {a : FoodEater}
    (hl : EatersConsistent l) (ha : Consistent a.cell) :
    EatersConsistent (l.set k a) := by
  intro e he
  rcases List.mem_or_eq_of_mem_set he with h | h
  · exact hl e h
  · rw [h]; exact ha

lemma foodStep_consistent (eaters : List FoodEater) (foods : List Food)
    (score : ℤ) (i : ℕ) (h : EatersConsistent eaters) :
    EatersConsistent (foodStep eaters foods score i).1 := by
  unfold foodStep
  cases hg : foods.get? i with
  | none => exact h
  | some food =>
    cases hf : findFoodEater food eaters with
    | none => simp only [hf]; exact h
    | some p =>
      obtain ⟨k, e'⟩ := p
      simp only [hf]
      obtain ⟨hk, he⟩ := findFoodEater_spec food eaters k e' hf
      exact eatersConsistent_set h (by rw [he]; rfl)

lemma foodLoop_consistent :
    ∀ (i : ℕ) (eaters : List FoodEater) (foods : List Food) (score : ℤ),
      EatersConsistent eaters → EatersConsistent (foodLoop eaters foods score i).1 := by
  intro i
  induction i with
  | zero => intro eaters foods score h; exact foodStep_consistent eaters foods score 0 h
  | succ i ih =>
    intro eaters foods score h
    rw [foodLoop_succ]
    exact ih _ _ _ (foodStep_consistent eaters foods score (i + 1) h)

lemma crossKStep_consistent (j : ℕ) (botCells pcells : List Cell) (score : ℤ)
    (k : ℕ) (hb : AllConsistent botCells) (hp : AllConsistent pcells) :
    AllConsistent (crossKStep j botCells pcells score k).1 ∧
    AllConsistent (crossKStep j botCells pcells score k).2.1 := by
  unfold crossKStep
  cases hgb : botCells.get? j with
  | none => exact ⟨hb, hp⟩
  | some bCell =>
    cases hgp : pcells.get? k with
    | none => exact ⟨hb, hp⟩
    | some pCell =>
      simp only
      split_ifs
      · exact ⟨allConsistent_eraseIdx hb, allConsistent_set hp rfl⟩
      · exact ⟨allConsistent_set hb rfl, allConsistent_eraseIdx hp⟩
      · exact ⟨hb, hp⟩

lemma crossK_consistent (j : ℕ) :
    ∀ (k : ℕ) (botCells pcells : List Cell) (score : ℤ),
      AllConsistent botCells → AllConsistent pcells →
      AllConsistent (crossK j botCells pcells score k).1 ∧
      AllConsistent (crossK j botCells pcells score k).2.1 := by
  intro k
  induction k with
  | zero =>
    intro botCells pcells score hb hp
    have h := crossKStep_consistent j botCells pcells score 0 hb hp
    rw [crossK]
    split_ifs <;> exact h
  | succ k ih =>
    intro botCells pcells score hb hp
    have h := crossKStep_consistent j botCells pcells score (k + 1) hb hp
    rw [crossK]
    split_ifs
    · exact h
    · exact ih _ _ _ h.1 h.2

lemma crossJ_consistent :
    ∀ (j : ℕ) (botCells pcells : List Cell) (score : ℤ),
      AllConsistent botCells → AllConsistent pcells →
      AllConsistent (crossJ botCells pcells score j).1 ∧
      AllConsistent (crossJ botCells pcells score j).2.1 := by
  intro j
  induction j with
  | zero =>
    intro botCells pcells score hb hp
    exact crossK_consistent 0 (pcells.length - 1) botCells pcells score hb hp
  | succ j ih =>
    intro botCells pcells score hb hp
    have h := crossK_consistent (j + 1) (pcells.length - 1) botCells pcells
      score hb hp
    exact ih _ _ _ h.1 h.2

lemma botsConsistent_set {bots : List Bot} {i : ℕ} {b : Bot}
    (hb : BotsConsistent bots) (hbb : AllConsistent b.cells) :
    BotsConsistent (bots.set i b) := by
  intro x hx
  rcases List.mem_or_eq_of_mem_set hx with h | h
  · exact hb x h
  · rw [h]; exact hbb

lemma crossIStep_consistent (bots : List Bot) (pcells : List Cell)
    (score : ℤ) (i : ℕ) (hb : BotsConsistent bots) (hp : AllConsistent pcells) :
    BotsConsistent (crossIStep bots pcells score i).1 ∧
    AllConsistent (crossIStep bots pcells score i).2.1 := by
  unfold crossIStep
  cases hg : bots.get? i with
  | none => exact ⟨hb, hp⟩
  | some bot =>
    have hmem : bot ∈ bots := List.get?_mem hg
    have h := crossJ_consistent (bot.cells.length - 1) bot.cells pcells score
      (hb bot hmem) hp
    exact ⟨botsConsistent_set hb h.1, h.2⟩

lemma crossI_consistent :
    ∀ (i : ℕ) (bots : List Bot) (pcells : List Cell) (score : ℤ),
      BotsConsistent bots → AllConsistent pcells →
      BotsConsistent (crossI bots pcells score i).1 ∧
      AllConsistent (crossI bots pcells score i).2.1 := by
  intro i
  induction i with
  | zero =>
    intro bots pcells score hb hp
    exact crossIStep_consistent bots pcells score 0 hb hp
  | succ i ih =>
    intro bots pcells score hb hp
    have h := crossIStep_consistent bots pcells score (i + 1) hb hp
    exact ih _ _ _ h.1 h.2

lemma findBlobPlayerEater_consistent (now : ℝ) (b : Blob) :
    ∀ (cells : List Cell) (k : ℕ) (c' : Cell),
      findBlobPlayerEater now b cells = some (k, c') → Consistent c' := by
  intro cells
  induction cells with
  | nil => intro k c' h; exact absurd h (by simp [findBlobPlayerEater])
  | cons c rest ih =>
    intro k c' h
    simp only [findBlobPlayerEater] at h
    split_ifs at h
    · simp only [Option.some.injEq, Prod.mk.injEq] at h
      rw [← h.2]
      rfl
    · cases hrec : findBlobPlayerEater now b rest with
      | none => rw [hrec] at h; simp at h
      | some p =>
        rw [hrec] at h
        simp only [Option.map_some', Option.some.injEq, Prod.mk.injEq] at h
        rw [← h.2]
        exact ih p.1 p.2 (by rw [hrec])

lemma findBlobBotCellEater_consistent (b : Blob) :
    ∀ (cells : List Cell) (k : ℕ) (c' : Cell),
      findBlobBotCellEater b cells = some (k, c') → Consistent c' := by
  intro cells
  induction cells with
  | nil => intro k c' h; exact absurd h (by simp [findBlobBotCellEater])
  | cons c rest ih =>
    intro k c' h
    simp only [findBlobBotCellEater] at h
    split_ifs at h
    · simp only [Option.some.injEq, Prod.mk.injEq] at h
      rw [← h.2]
      rfl
    · cases hrec : findBlobBotCellEater b rest with
      | none => rw [hrec] at h; simp at h
      | some p =>
        rw [hrec] at h
        simp only [Option.map_some', Option.some.injEq, Prod.mk.injEq] at h
        rw [← h.2]
        exact ih p.1 p.2 (by rw [hrec])

lemma findBlobBotEater_consistent (b : Blob) :
    ∀ (bots : List Bot) (bi j : ℕ) (c' : Cell),
      findBlobBotEater b bots = some (bi, j, c') → Consistent c' := by
  intro bots
  induction bots with
  | nil => intro bi j c' h; exact absurd h (by simp [findBlobBotEater])
  | cons bot rest ih =>
    intro bi j c' h
    simp only [findBlobBotEater] at h
    cases hcell : findBlobBotCellEater b bot.cells with
    | some p =>
      rw [hcell] at h
      simp only [Option.some.injEq, Prod.mk.injEq] at h
      rw [← h.2.2]
      exact findBlobBotCellEater_consistent b bot.cells p.1 p.2 (by rw [hcell])
    | none =>
      rw [hcell] at h
      cases hrec : findBlobBotEater b rest with
      | none => rw [hrec] at h; simp at h
      | some p =>
        rw [hrec] at h
        simp only [Option.map_some', Option.some.injEq, Prod.mk.injEq] at h
        have hc2 : p.2.2 = c' := by rw [h.2]
        rw [← hc2]
        exact ih p.1 p.2.1 p.2.2 (by rw [hrec])

lemma setBotCell_consistent {bots : List Bot} {bi j : ℕ} {c : Cell}
    (hb : BotsConsistent bots) (hc : Consistent c) :
    BotsConsistent (setBotCell bots bi j c) := by
  unfold setBotCell
  cases hg : bots.get? bi with
  | none => exact hb
  | some bot =>
    exact botsConsistent_set hb
      (allConsistent_set (hb bot (List.get?_mem hg)) hc)

lemma blobStep_consistent (now : ℝ) (pcells : List Cell) (bots : List Bot)
    (blobs : List Blob) (i : ℕ) (hp : AllConsistent pcells)
    (hb : BotsConsistent bots) :
    AllConsistent (blobStep now pcells bots blobs i).1 ∧
    BotsConsistent (blobStep now pcells bots blobs i).2.1 := by
  unfold blobStep
  cases hg : blobs.get? i with
  | none => exact ⟨hp, hb⟩
  | some b0 =>
    simp only
    cases hfp : findBlobPlayerEater now (blobPhysics b0) pcells with
    | some p =>
      simp only [hfp]
      exact ⟨allConsistent_set hp
        (findBlobPlayerEater_consistent now (blobPhysics b0) pcells p.1 p.2
          (by rw [hfp])), hb⟩
    | none =>
      simp only [hfp]
      cases hfb : findBlobBotEater (blobPhysics b0) bots with
      | some q =>
        simp only [hfb]
        exact ⟨hp, setBotCell_consistent hb
          (findBlobBotEater_consistent (blobPhysics b0) bots q.1 q.2.1 q.2.2
            (by rw [hfb]))⟩
      | none =>
        simp only [hfb]
        exact ⟨hp, hb⟩

lemma blobLoop_consistent (now : ℝ) :
    ∀ (i : ℕ) (pcells : List Cell) (bots : List Bot) (blobs : List Blob),
      AllConsistent pcells → BotsConsistent bots →
      AllConsistent (blobLoop now pcells bots blobs i).1 ∧
      BotsConsistent (blobLoop now pcells bots blobs i).2.1 := by
  intro i
  induction i with
  | zero =>
    intro pcells bots blobs hp hb
    exact blobStep_consistent now pcells bots blobs 0 hp hb
  | succ i ih =>
    intro pcells bots blobs hp hb
    have h := blobStep_consistent now pcells bots blobs (i + 1) hp hb
    exact ih _ _ _ h.1 h.2

lemma massToRadius_radiusToMass {r : ℝ} (hr : 0 ≤ r) :
    massToRadius (radiusToMass r) = r := by
  unfold massToRadius radiusToMass
  have hπ : Real.pi ≠ 0 := ne_of_gt Real.pi_pos
  have harg : r * r * Real.pi / 100 * 100 / Real.pi = r * r := by
    field_simp
  rw [harg, Real.sqrt_mul_self hr]

lemma radiusToMass_massToRadius {m : ℝ} (hm : 0 ≤ m) :
    radiusToMass (massToRadius m) = m := by
  unfold massToRadius radiusToMass
  have hπ : Real.pi ≠ 0 := ne_of_gt Real.pi_pos
  have hnn : 0 ≤ m * 100 / Real.pi := by positivity
  rw [Real.mul_self_sqrt hnn]
  field_simp

/-- Claim C5: `massToRadius` and `radiusToMass` are exact inverses on
nonnegative arguments, and every operation of the tick that mutates a
cell's mass immediately recomputes its radius, so the invariant
`radius = massToRadius mass` is preserved by the split intent, the eject
intent (both for the cells and the newly created blob), the per-cell
movement integration with its mass decay (player and bot), the
self-collision pass (merge and push-apart), the virus explosion (player)
and the bot virus hit, the food-consumption pass, the cross-actor
consumption pass, and the ejected-mass consumption pass — radius and mass
never diverge. -/
theorem radius_mass_consistency
    (r m now dirX dirY moveX moveY tx ty comX comY : ℝ)
    (ids blobIds : ℕ → ℕ) (angles : ℕ → ℝ)
    (hasInput : Bool) (cellCount : ℕ)
    (cells pcells : List Cell) (cell : Cell) (bots : List Bot) (j : ℕ)
    (virus : Virus) (eaters : List FoodEater) (foods : List Food)
    (score : ℤ) (blobs : List Blob) :
    (0 ≤ r → massToRadius (radiusToMass r) = r) ∧
    (0 ≤ m → radiusToMass (massToRadius m) = m) ∧
    (AllConsistent cells → AllConsistent (splitCells now dirX dirY ids cells)) ∧
    (AllConsistent cells →
      AllConsistent (ejectCells now dirX dirY blobIds cells).1 ∧
      ∀ b ∈ (ejectCells now dirX dirY blobIds cells).2,
        b.radius = massToRadius b.mass) ∧
    (Consistent cell →
      Consistent (integrateCell moveX moveY hasInput cellCount comX comY cell)) ∧
    (Consistent cell → Consistent (integrateBotCell tx ty cell)) ∧
    (AllConsistent cells → AllConsistent (selfCollide now cells)) ∧
    (AllConsistent cells → AllConsistent (explodeCell now ids angles cells j)) ∧
    (BotsConsistent bots → BotsConsistent (botsVirusHit virus bots)) ∧
    (EatersConsistent eaters →
      EatersConsistent (foodStage eaters foods score).1) ∧
    (AllConsistent pcells → BotsConsistent bots →
      BotsConsistent (crossActor bots pcells score).1 ∧
      AllConsistent (crossActor bots pcells score).2.1) ∧
    (AllConsistent pcells → BotsConsistent bots →
      AllConsistent (blobStage now pcells bots blobs).1 ∧
      BotsConsistent (blobStage now pcells bots blobs).2.1) := by
  refine ⟨fun hr => massToRadius_radiusToMass hr,
    fun hm => radiusToMass_massToRadius hm,
    splitCells_consistent now dirX dirY ids cells,
    ejectLoop_consistent now dirX dirY blobIds cells 0,
    integrateCell_consistent moveX moveY hasInput cellCount comX comY cell,
    integrateBotCell_consistent tx ty cell,
    selfCollide_consistent now cells,
    explodeCell_consistent now ids angles cells j,
    botsVirusHit_consistent virus bots,
    foodLoop_consistent (foods.length - 1) eaters foods score,
    ?_, ?_⟩
  · intro hp hb
    have h := crossI_consistent (bots.length - 1) bots pcells score hb hp
    exact ⟨h.1, h.2⟩
  · intro hp hb
    have h := blobLoop_consistent now (blobs.length - 1) pcells bots blobs hp hb
    exact ⟨h.1, h.2⟩

/-- Witness for C5: the inverse law evaluated at 0, and the split pass on an
empty (vacuously consistent) cell list. -/
theorem radius_mass_consistency_witness :
    massToRadius (radiusToMass 0) = 0 ∧
    AllConsistent (splitCells 0 1 0 (fun _ => 0) []) := by
  have h := radius_mass_consistency 0 0 0 1 0 0 0 0 0 0 0
    (fun _ => 0) (fun _ => 0) (fun _ => 0) false 1 [] []
    ⟨0, 0, 0, massToRadius 15, 15, 0, 0, 0, 0⟩ [] 0 ⟨0, 0, 0, 70⟩ [] [] 0 []
  exact ⟨h.1 le_rfl, h.2.2.1 allConsistent_nil⟩

/-! ### Exactly-one-consumption accounting (claim C7)

The "first matching eater wins" scans (`findFoodEater`,
`findBlobPlayerEater`, `findBlobBotEater`) and the break/removal structure
of the cross-actor loops guarantee that every consumed entity's mass is
credited to exactly one eater.  The lemmas below make this quantitative:
the total mass over the affected collections is exactly conserved by the
cross-actor and ejected-mass passes (a double-counted consumption would
strictly increase it, a dropped one would strictly decrease it). -/

lemma get_of_get? {α : Type} {l : List α} {n : ℕ} {x : α}
    (hg : l.get? n = some x) : ∃ h : n < l.length, l.get ⟨n, h⟩ = x := by
  have hlt : n < l.length := by
    by_contra hcon
    push_neg at hcon
    rw [List.get?_eq_none.mpr hcon] at hg
    simp at hg
  refine ⟨hlt, ?_⟩
  have h2 := List.get?_eq_get hlt
  rw [hg] at h2
  exact (Option.some_inj.mp h2).symm

lemma map_sum_eraseIdx {α : Type} (f : α → ℝ) :
    ∀ (l : List α) (i : ℕ) (h : i < l.length),
      ((l.eraseIdx i).map f).sum = (l.map f).sum - f (l.get ⟨i, h⟩) := by
  intro l
  induction l with
  | nil => intro i h; simp at h
  | cons x rest ih =>
    intro i h
    cases i with
    | zero => simp [List.eraseIdx]
    | succ i' =>
      simp only [List.eraseIdx, List.map_cons, List.sum_cons, List.get]
      rw [ih i' (by simpa using h)]
      ring

lemma map_sum_dropLast {α : Type} (f : α → ℝ) :
    ∀ (l : List α) (h : l ≠ []),
      (l.dropLast.map f).sum = (l.map f).sum - f (l.getLast h) := by
  intro l
  induction l with
  | nil => intro h; exact absurd rfl h
  | cons x rest ih =>
    intro h
    cases rest with
    | nil => simp
    | cons y t =>
      have hne : (y :: t) ≠ [] := by simp
      rw [show (x :: y :: t).dropLast = x :: (y :: t).dropLast from rfl]
      simp only [List.map_cons, List.sum_cons]
      rw [ih hne, List.getLast_cons hne]
      simp only [List.map_cons, List.sum_cons]
      ring

lemma swapPop_map_sum {α : Type} (f : α → ℝ) (l : List α) (i : ℕ)
    (h : i < l.length) :
    ((swapPop l i).map f).sum = (l.map f).sum - f (l.get ⟨i, h⟩) := by
  have hne : l ≠ [] := List.ne_nil_of_length_pos (by omega)
  unfold swapPop
  rw [List.getLast?_eq_getLast l hne]
  have hsetlen : (l.set i (l.getLast hne)).length = l.length := by
    rw [List.length_set]
  have hsetne : l.set i (l.getLast hne) ≠ [] := by
    intro hcon
    rw [hcon] at hsetlen
    simp at hsetlen
    omega
  rw [map_sum_dropLast f _ hsetne, map_sum_set f l i _ h]
  have hlast? : (l.set i (l.getLast hne)).getLast? = some (l.getLast hne) := by
    rw [List.getLast?_eq_getElem?, hsetlen]
    by_cases hi : i = l.length - 1
    · subst hi
      exact List.getElem?_set_self (by omega)
    · rw [List.getElem?_set_ne hi, ← List.getLast?_eq_getElem?]
      exact List.getLast?_eq_getLast l hne
  have hlast : (l.set i (l.getLast hne)).getLast hsetne = l.getLast hne := by
    have h3 := List.getLast?_eq_getLast _ hsetne
    rw [h3] at hlast?
    exact Option.some_inj.mp hlast?
  rw [hlast]
  ring

/-- Total mass carried by a list of ejected blobs. -/
def blobTotal (l : List Blob) : ℝ := (l.map Blob.mass).sum

/-- Total cell mass across a list of bots. -/
def botsCellsTotal (bots : List Bot) : ℝ :=
  (bots.map (fun b => totalMass b.cells)).sum

lemma blobPhysics_mass (b : Blob) : (blobPhysics b).mass = b.mass := by
  simp [blobPhysics, blobIntegrate, blobReflect, apply_ite Blob.mass]

lemma findBlobPlayerEater_spec (now : ℝ) (b : Blob) :
    ∀ (cells : List Cell) (k : ℕ) (c' : Cell),
      findBlobPlayerEater now b cells = some (k, c') →
      ∃ h : k < cells.length, c'.mass = (cells.get ⟨k, h⟩).mass + b.mass := by
  intro cells
  induction cells with
  | nil => intro k c' h; exact absurd h (by simp [findBlobPlayerEater])
  | cons c rest ih =>
    intro k c' h
    simp only [findBlobPlayerEater] at h
    split_ifs at h
    · simp only [Option.some.injEq, Prod.mk.injEq] at h
      obtain ⟨hk, he⟩ := h
      subst hk; subst he
      exact ⟨by simp, by simp⟩
    · cases hrec : findBlobPlayerEater now b rest with
      | none => rw [hrec] at h; simp at h
      | some p =>
        rw [hrec] at h
        simp only [Option.map_some', Option.some.injEq, Prod.mk.injEq] at h
        obtain ⟨hk, he⟩ := h
        subst hk; subst he
        obtain ⟨hb, hm⟩ := ih p.1 p.2 hrec
        exact ⟨by simp; omega, by simpa using hm⟩

lemma findBlobBotCellEater_spec (b : Blob) :
    ∀ (cells : List Cell) (k : ℕ) (c' : Cell),
      findBlobBotCellEater b cells = some (k, c') →
      ∃ h : k < cells.length, c'.mass = (cells.get ⟨k, h⟩).mass + b.mass := by
  intro cells
  induction cells with
  | nil => intro k c' h; exact absurd h (by simp [findBlobBotCellEater])
  | cons c rest ih =>
    intro k c' h
    simp only [findBlobBotCellEater] at h
    split_ifs at h
    · simp only [Option.some.injEq, Prod.mk.injEq] at h
      obtain ⟨hk, he⟩ := h
      subst hk; subst he
      exact ⟨by simp, by simp⟩
    · cases hrec : findBlobBotCellEater b rest with
      | none => rw [hrec] at h; simp at h
      | some p =>
        rw [hrec] at h
        simp only [Option.map_some', Option.some.injEq, Prod.mk.injEq] at h
        obtain ⟨hk, he⟩ := h
        subst hk; subst he
        obtain ⟨hb, hm⟩ := ih p.1 p.2 hrec
        exact ⟨by simp; omega, by simpa using hm⟩

lemma findBlobBotEater_spec (b : Blob) :
    ∀ (bots : List Bot) (bi j : ℕ) (c' : Cell),
      findBlobBotEater b bots = some (bi, j, c') →
      ∃ h : bi < bots.length,
        findBlobBotCellEater b (bots.get ⟨bi, h⟩).cells = some (j, c') := by
  intro bots
  induction bots with
  | nil => intro bi j c' h; exact absurd h (by simp [findBlobBotEater])
  | cons bot rest ih =>
    intro bi j c' h
    simp only [findBlobBotEater] at h
    cases hcell : findBlobBotCellEater b bot.cells with
    | some p =>
      rw [hcell] at h
      simp only [Option.some.injEq, Prod.mk.injEq] at h
      obtain ⟨hbi, hj2, hc2⟩ := h
      subst hbi
      refine ⟨by simp, ?_⟩
      simp only [List.get]
      rw [hcell, ← hj2, ← hc2]
    | none =>
      rw [hcell] at h
      cases hrec : findBlobBotEater b rest with
      | none => rw [hrec] at h; simp at h
      | some p =>
        rw [hrec] at h
        simp only [Option.map_some', Option.some.injEq, Prod.mk.injEq] at h
        obtain ⟨hbi, hrest⟩ := h
        subst hbi
        have hj2 : p.2.1 = j := by rw [hrest]
        have hc2 : p.2.2 = c' := by rw [hrest]
        obtain ⟨hble, hcc⟩ := ih p.1 p.2.1 p.2.2 (by rw [hrec])
        refine ⟨by simp; omega, ?_⟩
        simp only [List.get]
        rw [← hj2, ← hc2]
        exact hcc

lemma setBotCell_total {bots : List Bot} {bi : ℕ} {bot : Bot} (j : ℕ)
    (c' : Cell) (hg : bots.get? bi = some bot) (hj : j < bot.cells.length) :
    botsCellsTotal (setBotCell bots bi j c') =
      botsCellsTotal bots - (bot.cells.get ⟨j, hj⟩).mass + c'.mass := by
  obtain ⟨hbi, hget⟩ := get_of_get? hg
  unfold setBotCell
  rw [hg]
  show botsCellsTotal
      (bots.set bi { bot with cells := bot.cells.set j c' }) = _
  unfold botsCellsTotal
  rw [map_sum_set (fun b => totalMass b.cells) bots bi _ hbi, hget]
  show (bots.map _).sum - totalMass bot.cells +
      totalMass (bot.cells.set j c') = _
  unfold totalMass
  rw [map_sum_set Cell.mass bot.cells j c' hj]
  ring

lemma blobStep_conserve (now : ℝ) (pcells : List Cell) (bots : List Bot)
    (blobs : List Blob) (i : ℕ) :
    totalMass (blobStep now pcells bots blobs i).1 +
      botsCellsTotal (blobStep now pcells bots blobs i).2.1 +
      blobTotal (blobStep now pcells bots blobs i).2.2 =
    totalMass pcells + botsCellsTotal bots + blobTotal blobs := by
  unfold blobStep
  cases hg : blobs.get? i with
  | none => rfl
  | some b0 =>
    obtain ⟨hlt, hgeteq⟩ := get_of_get? hg
    have hphys : (blobPhysics b0).mass = b0.mass := blobPhysics_mass b0
    have hset : blobTotal (blobs.set i (blobPhysics b0)) = blobTotal blobs := by
      unfold blobTotal
      rw [map_sum_set Blob.mass blobs i _ hlt, hgeteq, hphys]
      ring
    have hswaplen : i < (blobs.set i (blobPhysics b0)).length := by
      rw [List.length_set]; exact hlt
    have hgetset : (blobs.set i (blobPhysics b0)).get ⟨i, hswaplen⟩ =
        blobPhysics b0 := by
      rw [List.get_eq_getElem]
      exact List.getElem_set_self _
    have hswap : blobTotal (swapPop (blobs.set i (blobPhysics b0)) i) =
        blobTotal blobs - b0.mass := by
      unfold blobTotal
      rw [swapPop_map_sum Blob.mass _ i hswaplen, hgetset, hphys]
      have h4 := hset
      unfold blobTotal at h4
      rw [h4]
    cases hfp : findBlobPlayerEater now (blobPhysics b0) pcells with
    | some p =>
      simp only [hfp]
      obtain ⟨hk, hmass⟩ := findBlobPlayerEater_spec now (blobPhysics b0)
        pcells p.1 p.2 (by rw [hfp])
      have hp' : totalMass (pcells.set p.1 p.2) =
          totalMass pcells + b0.mass := by
        unfold totalMass
        rw [map_sum_set Cell.mass pcells p.1 p.2 hk, hmass, hphys]
        ring
      show totalMass (pcells.set p.1 p.2) + botsCellsTotal bots +
          blobTotal (swapPop (blobs.set i (blobPhysics b0)) i) = _
      rw [hp', hswap]
      ring
    | none =>
      simp only [hfp]
      cases hfb : findBlobBotEater (blobPhysics b0) bots with
      | some q =>
        simp only [hfb]
        obtain ⟨hbi, hcelleq⟩ := findBlobBotEater_spec (blobPhysics b0) bots
          q.1 q.2.1 q.2.2 (by rw [hfb])
        obtain ⟨hj, hmass⟩ := findBlobBotCellEater_spec (blobPhysics b0)
          (bots.get ⟨q.1, hbi⟩).cells q.2.1 q.2.2 hcelleq
        have hbots' : botsCellsTotal (setBotCell bots q.1 q.2.1 q.2.2) =
            botsCellsTotal bots + b0.mass := by
          rw [setBotCell_total q.2.1 q.2.2 (List.get?_eq_get hbi) hj, hmass,
            hphys]
          ring
        show totalMass pcells + botsCellsTotal (setBotCell bots q.1 q.2.1 q.2.2) +
            blobTotal (swapPop (blobs.set i (blobPhysics b0)) i) = _
        rw [hbots', hswap]
        ring
      | none =>
        simp only [hfb]
        show totalMass pcells + botsCellsTotal bots +
            blobTotal (blobs.set i (blobPhysics b0)) = _
        rw [hset]

lemma blobLoop_conserve (now : ℝ) :
    ∀ (i : ℕ) (pcells : List Cell) (bots : List Bot) (blobs : List Blob),
      totalMass (blobLoop now pcells bots blobs i).1 +
        botsCellsTotal (blobLoop now pcells bots blobs i).2.1 +
        blobTotal (blobLoop now pcells bots blobs i).2.2 =
      totalMass pcells + botsCellsTotal bots + blobTotal blobs := by
  intro i
  induction i with
  | zero =>
    intro pcells bots blobs
    exact blobStep_conserve now pcells bots blobs 0
  | succ i ih =>
    intro pcells bots blobs
    exact (ih _ _ _).trans (blobStep_conserve now pcells bots blobs (i + 1))

lemma crossKStep_conserve (j : ℕ) (botCells pcells : List Cell) (score : ℤ)
    (k : ℕ) :
    totalMass (crossKStep j botCells pcells score k).1 +
      totalMass (crossKStep j botCells pcells score k).2.1 =
    totalMass botCells + totalMass pcells := by
  unfold crossKStep
  cases hgb : botCells.get? j with
  | none => rfl
  | some bCell =>
    cases hgp : pcells.get? k with
    | none => rfl
    | some pCell =>
      obtain ⟨hj, hbeq⟩ := get_of_get? hgb
      obtain ⟨hk, hpeq⟩ := get_of_get? hgp
      simp only
      split_ifs
      · show totalMass (botCells.eraseIdx j) + totalMass (pcells.set k _) = _
        unfold totalMass
        rw [map_sum_eraseIdx Cell.mass botCells j hj,
          map_sum_set Cell.mass pcells k _ hk, hbeq, hpeq]
        dsimp only
        ring
      · show totalMass (botCells.set j _) + totalMass (pcells.eraseIdx k) = _
        unfold totalMass
        rw [map_sum_set Cell.mass botCells j _ hj,
          map_sum_eraseIdx Cell.mass pcells k hk, hbeq, hpeq]
        dsimp only
        ring
      · rfl

lemma crossK_conserve (j : ℕ) :
    ∀ (k : ℕ) (botCells pcells : List Cell) (score : ℤ),
      totalMass (crossK j botCells pcells score k).1 +
        totalMass (crossK j botCells pcells score k).2.1 =
      totalMass botCells + totalMass pcells := by
  intro k
  induction k with
  | zero =>
    intro botCells pcells score
    have h := crossKStep_conserve j botCells pcells score 0
    rw [crossK]
    split_ifs <;> exact h
  | succ k ih =>
    intro botCells pcells score
    have h := crossKStep_conserve j botCells pcells score (k + 1)
    rw [crossK]
    split_ifs
    · exact h
    · exact (ih _ _ _).trans h

lemma crossJ_conserve :
    ∀ (j : ℕ) (botCells pcells : List Cell) (score : ℤ),
      totalMass (crossJ botCells pcells score j).1 +
        totalMass (crossJ botCells pcells score j).2.1 =
      totalMass botCells + totalMass pcells := by
  intro j
  induction j with
  | zero =>
    intro botCells pcells score
    exact crossK_conserve 0 (pcells.length - 1) botCells pcells score
  | succ j ih =>
    intro botCells pcells score
    rw [crossJ]
    exact (ih _ _ _).trans
      (crossK_conserve (j + 1) (pcells.length - 1) botCells pcells score)

lemma crossIStep_conserve (bots : List Bot) (pcells : List Cell) (score : ℤ)
    (i : ℕ) :
    botsCellsTotal (crossIStep bots pcells score i).1 +
      totalMass (crossIStep bots pcells score i).2.1 =
    botsCellsTotal bots + totalMass pcells := by
  unfold crossIStep
  cases hg : bots.get? i with
  | none => rfl
  | some bot =>
    obtain ⟨hbi, hbeq⟩ := get_of_get? hg
    have hJ := crossJ_conserve (bot.cells.length - 1) bot.cells pcells score
    show botsCellsTotal (bots.set i
        { bot with cells := (crossJ bot.cells pcells score
            (bot.cells.length - 1)).1 }) +
      totalMass (crossJ bot.cells pcells score (bot.cells.length - 1)).2.1 = _
    unfold botsCellsTotal
    rw [map_sum_set (fun b => totalMass b.cells) bots i _ hbi, hbeq]
    dsimp only
    linarith [hJ]

lemma crossI_conserve :
    ∀ (i : ℕ) (bots : List Bot) (pcells : List Cell) (score : ℤ),
      botsCellsTotal (crossI bots pcells score i).1 +
        totalMass (crossI bots pcells score i).2.1 =
      botsCellsTotal bots + totalMass pcells := by
  intro i
  induction i with
  | zero =>
    intro bots pcells score
    exact crossIStep_conserve bots pcells score 0
  | succ i ih =>
    intro bots pcells score
    exact (ih _ _ _).trans (crossIStep_conserve bots pcells score (i + 1))

/-- Claim C7 (amended): within each consumption stage, every contested
entity's effect is applied to exactly one eater per tick — the first
matching eater in iteration order wins.  Food: the total mass gained across
all eaters equals exactly the number of pellets removed and the eater list
keeps its length.  Cross-actor: the combined mass of player and bot cells
is exactly conserved, so each eaten cell is credited to exactly one
surviving cell.  Ejected mass: the combined mass of player cells, bot cells
and blobs is exactly conserved, so each consumed blob is credited to
exactly one cell.  The exception is the bot branch of the virus check,
which has no break: a single virus's bonus may be applied to several
overlapping bot cells in the same tick (see the counterexample). -/
theorem food_consumed_once (eaters : List FoodEater) (foods : List Food)
    (score : ℤ) (bots : List Bot) (pcells : List Cell) (now : ℝ)
    (blobs : List Blob) :
    ((foodStage eaters foods score).2.1.length ≤ foods.length ∧
      eatersMass (foodStage eaters foods score).1 =
        eatersMass eaters +
          ((foods.length : ℝ) - (foodStage eaters foods score).2.1.length) ∧
      (foodStage eaters foods score).1.length = eaters.length) ∧
    (botsCellsTotal (crossActor bots pcells score).1 +
        totalMass (crossActor bots pcells score).2.1 =
      botsCellsTotal bots + totalMass pcells) ∧
    (totalMass (blobStage now pcells bots blobs).1 +
        botsCellsTotal (blobStage now pcells bots blobs).2.1 +
        blobTotal (blobStage now pcells bots blobs).2.2 =
      totalMass pcells + botsCellsTotal bots + blobTotal blobs) := by
  have h := foodLoop_spec (foods.length - 1) eaters foods score
  exact ⟨⟨h.1, h.2.1, h.2.2.2.2⟩,
    crossI_conserve (bots.length - 1) bots pcells score,
    blobLoop_conserve now (blobs.length - 1) pcells bots blobs⟩

end

end Game
